import Mathlib

/-!
Chameleon: canvas, audio and timezone interceptors.

A shallow embedding of `content/modules/interceptors/canvas.js`,
`audio.js` and `timezone.js`.

Conventions of the embedding.

* JavaScript numbers are modelled by exact rationals (`ℚ`); the values
  `NaN` and `±Infinity` are outside the model.  Where the outcome depends on
  the rounding of doubles (the integers stored by `detectEdges`), the
  namespace `Binary64` gives the same computation with every operation
  rounded to the nearest double.
* A `Uint8ClampedArray` / `Uint8Array` is a list of integers / naturals;
  reads use `List.getD _ _ 0` and writes use `List.set`, which like a
  typed-array store ignores an index past the end.
* The seeded generator `this.rng` is an infinite sequence `rng : ℕ → ℚ`
  of draws together with a position; each call `this.rng()` reads
  `rng pos` and moves to `pos + 1`.
-/

namespace Chameleon

/-! ## canvas.js -/

/-- The `profile.canvas` record. -/
structure CanvasProfile where
  noise : ℚ
  offsetX : ℚ
  offsetY : ℚ

/-- `Math.round`: nearest integer, ties towards `+∞`. -/
def jsRound (v : ℚ) : ℤ := ⌊v + 1 / 2⌋

/-- `clamp(value)`: `Math.max(0, Math.min(255, Math.round(value)))`. -/
def clamp (value : ℚ) : ℤ := max 0 (min 255 (jsRound value))

/-- `getPixelBrightness(data, index)`. -/
def getPixelBrightness (data : List ℤ) (index : ℕ) : ℚ :=
  let i := index * 4
  ((data.getD i 0 : ℚ) + (data.getD (i + 1) 0 : ℚ) + (data.getD (i + 2) 0 : ℚ)) / 3

/-- Sobel X response of `detectEdges` at the pixel `(x, y)`. -/
def sobelX (data : List ℤ) (width x y : ℕ) : ℚ :=
  let tl := getPixelBrightness data ((y - 1) * width + (x - 1))
  let tm := getPixelBrightness data ((y - 1) * width + x)
  let tr := getPixelBrightness data ((y - 1) * width + (x + 1))
  let ml := getPixelBrightness data (y * width + (x - 1))
  let mm := getPixelBrightness data (y * width + x)
  let mr := getPixelBrightness data (y * width + (x + 1))
  let bl := getPixelBrightness data ((y + 1) * width + (x - 1))
  let bm := getPixelBrightness data ((y + 1) * width + x)
  let br := getPixelBrightness data ((y + 1) * width + (x + 1))
  (-1 * tl + 0 * tm + 1 * tr +
   -2 * ml + 0 * mm + 2 * mr +
   -1 * bl + 0 * bm + 1 * br)

/-- Sobel Y response of `detectEdges` at the pixel `(x, y)`. -/
def sobelY (data : List ℤ) (width x y : ℕ) : ℚ :=
  let tl := getPixelBrightness data ((y - 1) * width + (x - 1))
  let tm := getPixelBrightness data ((y - 1) * width + x)
  let tr := getPixelBrightness data ((y - 1) * width + (x + 1))
  let ml := getPixelBrightness data (y * width + (x - 1))
  let mm := getPixelBrightness data (y * width + x)
  let mr := getPixelBrightness data (y * width + (x + 1))
  let bl := getPixelBrightness data ((y + 1) * width + (x - 1))
  let bm := getPixelBrightness data ((y + 1) * width + x)
  let br := getPixelBrightness data ((y + 1) * width + (x + 1))
  (-1 * tl + -2 * tm + -1 * tr +
    0 * ml +  0 * mm +  0 * mr +
    1 * bl +  2 * bm +  1 * br)

/-- The value stored by `edges[y * width + x] = Math.min(255, magnitude)`
with `magnitude = Math.sqrt(gx * gx + gy * gy)`.  `edges` is a
`Uint8Array`, so the store truncates the number towards zero; the integer
part of `min(255, sqrt q)` is `min 255 (Nat.sqrt ⌊q⌋)` (see
`storedMagnitude_eq_floor`). -/
def storedMagnitude (data : List ℤ) (width x y : ℕ) : ℕ :=
  let gx := sobelX data width x y
  let gy := sobelY data width x y
  min 255 (Nat.sqrt ⌊gx * gx + gy * gy⌋₊)

/-- The red, green and blue channels of pixel `p` of an RGBA buffer. -/
def pixelRGB (data : List ℤ) (p : ℕ) : ℤ × ℤ × ℤ :=
  (data.getD (4 * p) 0, data.getD (4 * p + 1) 0, data.getD (4 * p + 2) 0)

/-- The buffer has colour `A` in the columns left of `c` and colour `B` from
column `c` on. -/
def IsVerticalBoundary (data : List ℤ) (width height c : ℕ) (A B : ℤ × ℤ × ℤ) : Prop :=
  ∀ x < width, ∀ y < height, pixelRGB data (y * width + x) = if x < c then A else B

/-- The horizontal Sobel kernel as the specification writes it. -/
def sobelKernelX : List (List ℚ) := [[-1, 0, 1], [-2, 0, 2], [-1, 0, 1]]

/-- The vertical Sobel kernel as the specification writes it. -/
def sobelKernelY : List (List ℚ) := [[-1, -2, -1], [0, 0, 0], [1, 2, 1]]

/-- Brightness as the specification writes it: the unweighted mean of red,
green and blue of the pixel at `(x, y)`. -/
def specBrightness (data : List ℤ) (width x y : ℕ) : ℚ :=
  let c := pixelRGB data (y * width + x)
  ((c.1 + c.2.1 + c.2.2 : ℤ) : ℚ) / 3

/-- The response of a 3×3 kernel `K` on the brightness field, centred at the
interior pixel `(x, y)`: row `i`, column `j` of `K` weighs the pixel
`(x + j - 1, y + i - 1)`. -/
def specKernelResponse (K : List (List ℚ)) (data : List ℤ) (width x y : ℕ) : ℚ :=
  ((List.range 3).map fun i =>
    ((List.range 3).map fun j =>
      (K.getD i []).getD j 0 * specBrightness data width (x + j - 1) (y + i - 1)).sum).sum

/-- A 3×3 opaque black buffer whose top-right pixel has red 3. -/
def cornerDotBuffer : List ℤ :=
  [0, 0, 0, 255,  0, 0, 0, 255,  3, 0, 0, 255,
   0, 0, 0, 255,  0, 0, 0, 255,  0, 0, 0, 255,
   0, 0, 0, 255,  0, 0, 0, 255,  0, 0, 0, 255]

/-- A 3×3 opaque buffer whose left column is `(3, 0, 0)` and whose other two
columns are `(0, 3, 0)`: two colours of equal brightness. -/
def redGreenBuffer : List ℤ :=
  [3, 0, 0, 255,  0, 3, 0, 255,  0, 3, 0, 255,
   3, 0, 0, 255,  0, 3, 0, 255,  0, 3, 0, 255,
   3, 0, 0, 255,  0, 3, 0, 255,  0, 3, 0, 255]

/-- A 3×3 opaque buffer whose left column is black and whose other two
columns are white. -/
def blackWhiteBuffer : List ℤ :=
  [0, 0, 0, 255,  255, 255, 255, 255,  255, 255, 255, 255,
   0, 0, 0, 255,  255, 255, 255, 255,  255, 255, 255, 255,
   0, 0, 0, 255,  255, 255, 255, 255,  255, 255, 255, 255]

/-- Inner loop of `detectEdges`: `for (let x = 1; x < width - 1; x++)`. -/
def detectEdgesRow (data : List ℤ) (width : ℕ) (edges : List ℕ) (y : ℕ) : List ℕ :=
  (List.range' 1 (width - 2)).foldl
    (fun e x => e.set (y * width + x) (storedMagnitude data width x y)) edges

/-- `detectEdges(data, width, height)`: a zero-filled `Uint8Array(width * height)`
and the two nested loops over the interior pixels. -/
def detectEdges (data : List ℤ) (width height : ℕ) : List ℕ :=
  (List.range' 1 (height - 2)).foldl (detectEdgesRow data width)
    (List.replicate (width * height) 0)

/-! ### detectEdges in IEEE-754 double precision

The definitions above compute with exact rationals.  The integer that
`detectEdges` stores depends on how JavaScript rounds each operation, so the
same function is given here with every division, product, sum and square root
rounded to the nearest double (ties to even).  Channels are bytes, so no
overflow, subnormal or `NaN` occurs; the sign of a zero is not tracked. -/

/-- A black 3×3 buffer with red 1 at the top-middle and red 13 at the
bottom-middle pixel: exactly `gy = 8`, in doubles `gy` is just below 8. -/
def roundingBuffer : List ℤ :=
  [0, 0, 0, 255,  1, 0, 0, 255,  0, 0, 0, 255,
   0, 0, 0, 255,  0, 0, 0, 255,  0, 0, 0, 255,
   0, 0, 0, 255,  13, 0, 0, 255,  0, 0, 0, 255]

namespace Binary64

/-- Round to the nearest integer, ties to the even one. -/
def roundHalfEven (m : ℚ) : ℤ :=
  let f := ⌊m⌋
  if m - f < 1 / 2 then f
  else if 1 / 2 < m - f then f + 1
  else if f % 2 = 0 then f else f + 1

/-- Binary logarithm with fuel: `⌊log₂ n⌋` for `1 ≤ n ≤ 2 ^ fuel`. -/
def log2Fuel : ℕ → ℕ → ℕ
  | 0, _ => 0
  | fuel + 1, n => if n < 2 then 0 else log2Fuel fuel (n / 2) + 1

/-- `⌊log₂ n⌋` for `n ≥ 1`. -/
def log2 (n : ℕ) : ℕ := log2Fuel n n

/-- The binary exponent of a non-zero rational: the `e` with
`2 ^ e ≤ |q| < 2 ^ (e + 1)`. -/
def binade (q : ℚ) : ℤ :=
  let a : ℤ := (log2 q.num.natAbs : ℤ) - (log2 q.den : ℤ)
  if (2 : ℚ) ^ a ≤ |q| then a else a - 1

/-- Rounding of an exact value to the nearest double (53 significant bits,
ties to even). -/
def round (q : ℚ) : ℚ :=
  if q = 0 then 0
  else
    let ulp : ℚ := (2 : ℚ) ^ (binade q - 52)
    (roundHalfEven (q / ulp) : ℚ) * ulp

/-- `a + b` in double arithmetic. -/
def add (a b : ℚ) : ℚ := round (a + b)

/-- `a * b` in double arithmetic. -/
def mul (a b : ℚ) : ℚ := round (a * b)

/-- `a / b` in double arithmetic. -/
def div (a b : ℚ) : ℚ := round (a / b)

/-- Integer square root, one result bit per step from bit `i - 1` down to
bit 0: the bit is set when the square still fits under `n`. -/
def isqrtBits (n : ℕ) : ℕ → ℕ → ℕ
  | 0, r => r
  | i + 1, r => isqrtBits n i (if (r + 2 ^ i) * (r + 2 ^ i) ≤ n then r + 2 ^ i else r)

/-- `⌊√n⌋` (see `isqrt_eq_sqrt`). -/
def isqrt (n : ℕ) : ℕ := isqrtBits n (log2 n / 2 + 1) 0

/-- `Math.sqrt` in double arithmetic: the square root rounded to the nearest
double.  The argument is scaled by a power of 4 so that its integer square
root `n` has more than 64 bits; an inexact root lies strictly between `n` and
`n + 1` and rounds like `n + 1/2`. -/
def sqrt (q : ℚ) : ℚ :=
  if q ≤ 0 then 0
  else
    let k : ℤ := 64 - binade q / 2
    let s : ℚ := q * (4 : ℚ) ^ k
    let n : ℕ := isqrt ⌊s⌋₊
    let approx : ℚ := if (n : ℚ) * n = s then n else n + 1 / 2
    round (approx / (2 : ℚ) ^ k)

/-- `getPixelBrightness(data, index)` in double arithmetic. -/
def getPixelBrightness (data : List ℤ) (index : ℕ) : ℚ :=
  let i := index * 4
  div (add (add (data.getD i 0 : ℚ) (data.getD (i + 1) 0 : ℚ)) (data.getD (i + 2) 0 : ℚ)) 3

/-- Sobel X response of `detectEdges` at `(x, y)` in double arithmetic, the
products and sums taken in the order the source writes them. -/
def sobelX (data : List ℤ) (width x y : ℕ) : ℚ :=
  let tl := getPixelBrightness data ((y - 1) * width + (x - 1))
  let tm := getPixelBrightness data ((y - 1) * width + x)
  let tr := getPixelBrightness data ((y - 1) * width + (x + 1))
  let ml := getPixelBrightness data (y * width + (x - 1))
  let mm := getPixelBrightness data (y * width + x)
  let mr := getPixelBrightness data (y * width + (x + 1))
  let bl := getPixelBrightness data ((y + 1) * width + (x - 1))
  let bm := getPixelBrightness data ((y + 1) * width + x)
  let br := getPixelBrightness data ((y + 1) * width + (x + 1))
  add (add (add (add (add (add (add (add (mul (-1) tl) (mul 0 tm)) (mul 1 tr))
    (mul (-2) ml)) (mul 0 mm)) (mul 2 mr))
    (mul (-1) bl)) (mul 0 bm)) (mul 1 br)

/-- Sobel Y response of `detectEdges` at `(x, y)` in double arithmetic, the
products and sums taken in the order the source writes them. -/
def sobelY (data : List ℤ) (width x y : ℕ) : ℚ :=
  let tl := getPixelBrightness data ((y - 1) * width + (x - 1))
  let tm := getPixelBrightness data ((y - 1) * width + x)
  let tr := getPixelBrightness data ((y - 1) * width + (x + 1))
  let ml := getPixelBrightness data (y * width + (x - 1))
  let mm := getPixelBrightness data (y * width + x)
  let mr := getPixelBrightness data (y * width + (x + 1))
  let bl := getPixelBrightness data ((y + 1) * width + (x - 1))
  let bm := getPixelBrightness data ((y + 1) * width + x)
  let br := getPixelBrightness data ((y + 1) * width + (x + 1))
  add (add (add (add (add (add (add (add (mul (-1) tl) (mul (-2) tm)) (mul (-1) tr))
    (mul 0 ml)) (mul 0 mm)) (mul 0 mr))
    (mul 1 bl)) (mul 2 bm)) (mul 1 br)

/-- The value stored by `edges[y * width + x] = Math.min(255, magnitude)` with
`magnitude = Math.sqrt(gx * gx + gy * gy)` in double arithmetic; the
`Uint8Array` store keeps the integer part. -/
def storedMagnitude (data : List ℤ) (width x y : ℕ) : ℕ :=
  let gx := sobelX data width x y
  let gy := sobelY data width x y
  let magnitude := sqrt (add (mul gx gx) (mul gy gy))
  ⌊min 255 magnitude⌋₊

/-- Inner loop of `detectEdges` in double arithmetic. -/
def detectEdgesRow (data : List ℤ) (width : ℕ) (edges : List ℕ) (y : ℕ) : List ℕ :=
  (List.range' 1 (width - 2)).foldl
    (fun e x => e.set (y * width + x) (storedMagnitude data width x y)) edges

/-- `detectEdges(data, width, height)` in double arithmetic. -/
def detectEdges (data : List ℤ) (width height : ℕ) : List ℕ :=
  (List.range' 1 (height - 2)).foldl (detectEdgesRow data width)
    (List.replicate (width * height) 0)

/-- Brightness as the specification writes it, `(R + G + B) / 3`, in double
arithmetic. -/
def specBrightness (data : List ℤ) (width x y : ℕ) : ℚ :=
  let c := pixelRGB data (y * width + x)
  div (add (add (c.1 : ℚ) (c.2.1 : ℚ)) (c.2.2 : ℚ)) 3

/-- The nine products of a 3×3 kernel `K` with the brightness of the
neighbourhood of `(x, y)`, row by row. -/
def specKernelTerms (K : List (List ℚ)) (data : List ℤ) (width x y : ℕ) : List ℚ :=
  (List.range 3).flatMap fun i =>
    (List.range 3).map fun j =>
      mul ((K.getD i []).getD j 0) (specBrightness data width (x + j - 1) (y + i - 1))

/-- The response of a 3×3 kernel in double arithmetic: the nine products added
from left to right. -/
def specKernelResponse (K : List (List ℚ)) (data : List ℤ) (width x y : ℕ) : ℚ :=
  (specKernelTerms K data width x y).tail.foldl add
    ((specKernelTerms K data width x y).headD 0)

end Binary64

/-- One iteration of the edge-noise loop of `applyCanvasNoise`; the state is
the pixel buffer and the stream position. -/
def edgeNoiseStep (P : CanvasProfile) (rng : ℕ → ℚ) (edges : List ℕ)
    (st : List ℤ × ℕ) (i : ℕ) : List ℤ × ℕ :=
  if edges.getD i 0 > 128 then
    let pixelIndex := i * 4
    let noise := (rng st.2 - 1 / 2) * P.noise * 255
    let d0 := st.1
    let d1 := d0.set pixelIndex (clamp (d0.getD pixelIndex 0 + noise))
    let d2 := d1.set (pixelIndex + 1) (clamp (d1.getD (pixelIndex + 1) 0 + noise))
    let d3 := d2.set (pixelIndex + 2) (clamp (d2.getD (pixelIndex + 2) 0 + noise))
    (d3, st.2 + 1)
  else st

/-- The edge-noise loop of `applyCanvasNoise`:
`for (let i = 0; i < edges.length; i++) if (edges[i] > 128) ...`. -/
def applyEdgeNoise (P : CanvasProfile) (rng : ℕ → ℚ) (edges : List ℕ)
    (data : List ℤ) (pos : ℕ) : List ℤ × ℕ :=
  (List.range edges.length).foldl (edgeNoiseStep P rng edges) (data, pos)

/-- The number of pixels before pixel `i` whose edge value exceeds 128: the
number of draws the edge-noise loop has made when it reaches pixel `i`. -/
def edgeCount (edges : List ℕ) (i : ℕ) : ℕ :=
  ((List.range i).filter (fun j => decide (edges.getD j 0 > 128))).length

/-- One iteration of the loop of `applyImageDataNoise` at `i = 4 * k`. -/
def imageDataNoiseStep (P : CanvasProfile) (rng : ℕ → ℚ)
    (st : List ℤ × ℕ) (k : ℕ) : List ℤ × ℕ :=
  let i := 4 * k
  let noise := (rng st.2 - 1 / 2) * P.noise * 50
  let d0 := st.1
  let d1 := d0.set i (clamp (d0.getD i 0 + noise))
  let d2 := d1.set (i + 1) (clamp (d1.getD (i + 1) 0 + noise))
  let d3 := d2.set (i + 2) (clamp (d2.getD (i + 2) 0 + noise))
  (d3, st.2 + 1)

/-- `applyImageDataNoise(imageData)`:
`for (let i = 0; i < data.length; i += 4)`, that is `⌈length / 4⌉` iterations. -/
def applyImageDataNoise (P : CanvasProfile) (rng : ℕ → ℚ)
    (data : List ℤ) (pos : ℕ) : List ℤ × ℕ :=
  (List.range ((data.length + 3) / 4)).foldl (imageDataNoiseStep P rng) (data, pos)

/-! ### The interceptor state machine of canvas.js -/

/-- Which kind of context a canvas is bound to.  The original `getContext`
returns `null` when asked for a kind other than the bound one. -/
inductive ContextMode where
  | unbound
  | twoD
  | other
  deriving DecidableEq, Repr

/-- An `HTMLCanvasElement`: its size, its RGBA bitmap, its context binding and
its origin-clean flag. -/
structure Canvas where
  width : ℕ
  height : ℕ
  data : List ℤ
  mode : ContextMode
  originClean : Bool

/-- The original (host) implementations the proxies forward to.  `none` stands
for a thrown exception (for example `SecurityError` on a tainted canvas). -/
structure Host (Blob : Type) where
  getImageData : Canvas → ℤ → ℤ → ℕ → ℕ → Option (List ℤ)
  putImageData : Canvas → List ℤ → ℕ → ℕ → ℤ → ℤ → Canvas
  fillRect : Canvas → ℚ → ℚ → ℚ → ℚ → ℤ × ℤ × ℤ → ℚ → Canvas
  toDataURL : Canvas → List String → Option Blob
  toBlob : Canvas → List String → Option Blob

/-- The state of a `CanvasInterceptor` and of the page's canvases: the
canvases by identity, the members of the `appliedCanvases` weak set and the
position of `this.rng`. -/
structure State where
  canvas : ℕ → Canvas
  appliedCanvases : List ℕ
  pos : ℕ

/-- The original `HTMLCanvasElement.prototype.getContext`: binds an unbound
canvas to the requested kind; the flag tells whether the returned context is
non-null. -/
def origGetContext (c : Canvas) (is2d : Bool) : Canvas × Bool :=
  match c.mode with
  | ContextMode.unbound =>
      ({ c with mode := if is2d then ContextMode.twoD else ContextMode.other }, true)
  | ContextMode.twoD => (c, is2d)
  | ContextMode.other => (c, !is2d)

/-- The proxy installed by `intercept2DContext`: forwards, and for a non-null
`'2d'` context of a canvas not in `appliedCanvases` calls `applyContextNoise`
(which only wraps `fillText`/`strokeText` of that context) and adds the canvas
to `appliedCanvases`. -/
def getContext (s : State) (id : ℕ) (is2d : Bool) : State × Bool :=
  let r := origGetContext (s.canvas id) is2d
  let s1 : State := { s with canvas := Function.update s.canvas id r.1 }
  if is2d ∧ r.2 ∧ id ∉ s1.appliedCanvases then
    ({ s1 with appliedCanvases := id :: s1.appliedCanvases }, r.2)
  else (s1, r.2)

/-- The part of the `getImageData` proxy after its call of `applyCanvasNoise`:
the original `getImageData` followed by `applyImageDataNoise` on its result.
Returns the noised pixels and the new stream position, `none` when the
original throws. -/
def getImageDataTail {Blob : Type} (P : CanvasProfile) (H : Host Blob) (rng : ℕ → ℚ)
    (s : State) (id : ℕ) (sx sy : ℤ) (sw sh : ℕ) : Option (List ℤ × ℕ) :=
  match H.getImageData (s.canvas id) sx sy sw sh with
  | none => none
  | some d => some (applyImageDataNoise P rng d s.pos)

/-- The rectangle origin passed to `ctx.fillRect` for the watermark. -/
def watermarkOrigin (P : CanvasProfile) (width height : ℕ) : ℚ × ℚ :=
  ((width : ℚ) - 1 + P.offsetX, (height : ℚ) - 1 + P.offsetY)

/-- `applyCanvasNoise(canvas)`.

`canvas.getContext('2d')` and `ctx.getImageData` / `ctx.putImageData` are the
patched prototype methods.  The nested `getImageData` proxy first calls
`applyCanvasNoise` again; at that point the `getContext` proxy has already
added the canvas to `appliedCanvases`, so that nested call returns at its
first line and the proxy reduces to `getImageDataTail`
(`getImageData_of_applied`).  The nested `putImageData` proxy runs
`applyImageDataNoise` before the original.  A throw inside `try` is caught
and leaves the state as it was at the throw. -/
def applyCanvasNoise {Blob : Type} (P : CanvasProfile) (H : Host Blob) (rng : ℕ → ℚ)
    (s : State) (id : ℕ) : State :=
  if id ∈ s.appliedCanvases then s else
  let g := getContext s id true
  let s1 := g.1
  if g.2 = false then s1 else
  let c := s1.canvas id
  let width := c.width
  let height := c.height
  if width = 0 ∨ height = 0 then s1 else
  match getImageDataTail P H rng s1 id 0 0 width height with
  | none => s1
  | some (data0, pos0) =>
    let edges := detectEdges data0 width height
    let e := applyEdgeNoise P rng edges data0 pos0
    let n := applyImageDataNoise P rng e.1 e.2
    let c2 := H.putImageData c n.1 width height 0 0
    let colour : ℤ × ℤ × ℤ :=
      (⌊rng n.2 * 256⌋, ⌊rng (n.2 + 1) * 256⌋, ⌊rng (n.2 + 2) * 256⌋)
    let o := watermarkOrigin P width height
    let c3 := H.fillRect c2 o.1 o.2 1 1 colour (1 / 100)
    { canvas := Function.update s1.canvas id c3
      appliedCanvases := if id ∈ s1.appliedCanvases then s1.appliedCanvases
                         else id :: s1.appliedCanvases
      pos := n.2 + 3 }

/-- The `toDataURL` proxy: `applyCanvasNoise(thisArg)` and then the original. -/
def toDataURL {Blob : Type} (P : CanvasProfile) (H : Host Blob) (rng : ℕ → ℚ)
    (s : State) (id : ℕ) (args : List String) : State × Option Blob :=
  let s1 := applyCanvasNoise P H rng s id
  (s1, H.toDataURL (s1.canvas id) args)

/-- The `toBlob` proxy: `applyCanvasNoise(thisArg)` and then the original; the
result is the blob handed to the callback. -/
def toBlob {Blob : Type} (P : CanvasProfile) (H : Host Blob) (rng : ℕ → ℚ)
    (s : State) (id : ℕ) (args : List String) : State × Option Blob :=
  let s1 := applyCanvasNoise P H rng s id
  (s1, H.toBlob (s1.canvas id) args)

/-- The `getImageData` proxy on the 2d context of canvas `id`:
`applyCanvasNoise(thisArg.canvas)`, the original, then `applyImageDataNoise`
on the returned image data. -/
def getImageData {Blob : Type} (P : CanvasProfile) (H : Host Blob) (rng : ℕ → ℚ)
    (s : State) (id : ℕ) (sx sy : ℤ) (sw sh : ℕ) : State × Option (List ℤ) :=
  let s1 := applyCanvasNoise P H rng s id
  match getImageDataTail P H rng s1 id sx sy sw sh with
  | none => (s1, none)
  | some (d, p) => ({ s1 with pos := p }, some d)

/-- The `putImageData` proxy on the 2d context of canvas `id`, for an
`ImageData` argument: `applyImageDataNoise(args[0])` and then the original. -/
def putImageData {Blob : Type} (P : CanvasProfile) (H : Host Blob) (rng : ℕ → ℚ)
    (s : State) (id : ℕ) (data : List ℤ) (w h : ℕ) (dx dy : ℤ) : State :=
  let n := applyImageDataNoise P rng data s.pos
  { s with canvas := Function.update s.canvas id (H.putImageData (s.canvas id) n.1 w h dx dy)
           pos := n.2 }

/-- A host whose bitmap operations are the obvious ones on whole canvases:
`getImageData` returns the bitmap (and throws on a tainted canvas),
`putImageData` replaces it, `fillRect` leaves it alone and the serialisers
return the bitmap itself. -/
def plainHost : Host (List ℤ) where
  getImageData := fun c _ _ _ _ => if c.originClean then some c.data else none
  putImageData := fun c d _ _ _ _ => { c with data := d }
  fillRect := fun c _ _ _ _ _ _ => c
  toDataURL := fun c _ => if c.originClean then some c.data else none
  toBlob := fun c _ => if c.originClean then some c.data else none

/-- A page call of one of the intercepted canvas operations. -/
inductive CanvasOp where
  | getContext (id : ℕ) (is2d : Bool)
  | toDataURL (id : ℕ) (args : List String)
  | toBlob (id : ℕ) (args : List String)
  | getImageData (id : ℕ) (sx sy : ℤ) (sw sh : ℕ)
  | putImageData (id : ℕ) (data : List ℤ) (w h : ℕ) (dx dy : ℤ)

/-- The state after one page call of an intercepted canvas operation. -/
def step {Blob : Type} (P : CanvasProfile) (H : Host Blob) (rng : ℕ → ℚ)
    (s : State) : CanvasOp → State
  | CanvasOp.getContext id is2d => (getContext s id is2d).1
  | CanvasOp.toDataURL id args => (toDataURL P H rng s id args).1
  | CanvasOp.toBlob id args => (toBlob P H rng s id args).1
  | CanvasOp.getImageData id sx sy sw sh => (getImageData P H rng s id sx sy sw sh).1
  | CanvasOp.putImageData id data w h dx dy => putImageData P H rng s id data w h dx dy

/-- The state after a sequence of page calls, first call first. -/
def run {Blob : Type} (P : CanvasProfile) (H : Host Blob) (rng : ℕ → ℚ)
    (s : State) (ops : List CanvasOp) : State :=
  ops.foldl (step P H rng) s

/-! ## audio.js -/

/-- The `profile.audio` record. -/
structure AudioProfile where
  sampleRate : ℚ
  noise : ℚ

/-- The loop of the `getByteFrequencyData` and `getByteTimeDomainData`
proxies over the array filled by the original:
`noise = Math.floor((rng() - 0.5) * 2)`,
`array[i] = Math.max(0, Math.min(255, array[i] + noise))`. -/
def byteNoiseLoop (rng : ℕ → ℚ) : List ℤ → ℕ → List ℤ × ℕ
  | [], pos => ([], pos)
  | a :: rest, pos =>
      let noise : ℤ := ⌊(rng pos - 1 / 2) * 2⌋
      let r := byteNoiseLoop rng rest (pos + 1)
      (max 0 (min 255 (a + noise)) :: r.1, r.2)

/-- The loop of the `getFloatTimeDomainData` proxy:
`noise = (rng() - 0.5) * profile.noise * 0.1`,
`array[i] = Math.max(-1, Math.min(1, array[i] + noise))`. -/
def floatTimeNoiseLoop (P : AudioProfile) (rng : ℕ → ℚ) : List ℚ → ℕ → List ℚ × ℕ
  | [], pos => ([], pos)
  | a :: rest, pos =>
      let noise : ℚ := (rng pos - 1 / 2) * P.noise * (1 / 10)
      let r := floatTimeNoiseLoop P rng rest (pos + 1)
      (max (-1) (min 1 (a + noise)) :: r.1, r.2)

/-- The `getByteFrequencyData` proxy.  `array` is `args[0]` as the original
left it (`none` when the argument is missing: `if (!array) return`). -/
def getByteFrequencyData (rng : ℕ → ℚ) (array : Option (List ℤ)) (pos : ℕ) :
    Option (List ℤ) × ℕ :=
  match array with
  | none => (none, pos)
  | some a => let r := byteNoiseLoop rng a pos; (some r.1, r.2)

/-- The `getByteTimeDomainData` proxy. -/
def getByteTimeDomainData (rng : ℕ → ℚ) (array : Option (List ℤ)) (pos : ℕ) :
    Option (List ℤ) × ℕ :=
  match array with
  | none => (none, pos)
  | some a => let r := byteNoiseLoop rng a pos; (some r.1, r.2)

/-- The `getFloatTimeDomainData` proxy. -/
def getFloatTimeDomainData (P : AudioProfile) (rng : ℕ → ℚ) (array : Option (List ℚ))
    (pos : ℕ) : Option (List ℚ) × ℕ :=
  match array with
  | none => (none, pos)
  | some a => let r := floatTimeNoiseLoop P rng a pos; (some r.1, r.2)

/-! ## timezone.js -/

/-- The `profile.timezone` record; `name` is an IANA zone id. -/
structure TimezoneProfile where
  name : String
  offset : ℤ
  locale : String

/-- The proxy on `Date.prototype.getTimezoneOffset`: the handler ignores
`target` (here its result `hostOffset`), the receiver and the arguments. -/
def getTimezoneOffset {Recv Arg : Type} (P : TimezoneProfile) (_hostOffset : ℤ)
    (_thisArg : Recv) (_args : List Arg) : ℤ :=
  P.offset

/-- The object literal `abbreviations` of `getTimezoneAbbreviation`. -/
def abbreviations : List (String × String) :=
  [("America/New_York", "EST"),
   ("America/Chicago", "CST"),
   ("America/Denver", "MST"),
   ("America/Los_Angeles", "PST"),
   ("America/Phoenix", "MST"),
   ("Europe/London", "GMT"),
   ("Europe/Paris", "CET"),
   ("Europe/Berlin", "CET"),
   ("Europe/Moscow", "MSK"),
   ("Asia/Tokyo", "JST"),
   ("Asia/Shanghai", "CST"),
   ("Asia/Kolkata", "IST"),
   ("Australia/Sydney", "AEDT")]

/-- `getTimezoneAbbreviation()`: `abbreviations[this.profile.name] || 'GMT'`.
Every table entry is a non-empty string, so `||` falls through only for a
missing key; zone ids never name a property inherited from
`Object.prototype`. -/
def getTimezoneAbbreviation (P : TimezoneProfile) : String :=
  match abbreviations.lookup P.name with
  | some a => a
  | none => "GMT"

/-- `s.padStart(2, '0')`. -/
def padStart2 (s : String) : String :=
  if s.length < 2 then String.mk (List.replicate (2 - s.length) '0') ++ s else s

/-- `getGMTOffset()`. -/
def getGMTOffset (P : TimezoneProfile) : String :=
  let hours := P.offset.natAbs / 60
  let minutes := P.offset.natAbs % 60
  let sign := if P.offset ≤ 0 then "+" else "-"
  sign ++ padStart2 (toString hours) ++ padStart2 (toString minutes)

/-- An anchored match of `/GMT[+-]\d{4} \([^)]+\)/` at the head of the input;
returns the text after the match.  `[^)]+` is greedy but cannot cross a `)`,
so it runs to the first `)` and must be non-empty. -/
def matchGMT : List Char → Option (List Char)
  | g :: m :: t :: sg :: d1 :: d2 :: d3 :: d4 :: sp :: lp :: rest =>
      if g = 'G' ∧ m = 'M' ∧ t = 'T' ∧ (sg = '+' ∨ sg = '-') ∧
          d1.isDigit = true ∧ d2.isDigit = true ∧ d3.isDigit = true ∧ d4.isDigit = true ∧
          sp = ' ' ∧ lp = '(' then
        match rest.dropWhile (fun c => c != ')') with
        | [] => none
        | _ :: after =>
            if rest.takeWhile (fun c => c != ')') = [] then none else some after
      else none
  | _ => none

/-- `String.prototype.replace(/GMT[+-]\d{4} \([^)]+\)/, repl)` on the
characters of the string: the leftmost match is replaced, the rest is kept
(the pattern has no `g` flag, and `repl` here contains no `$`). -/
def replaceGMT (repl : List Char) : List Char → List Char
  | [] => []
  | c :: cs =>
      match matchGMT (c :: cs) with
      | some after => repl ++ after
      | none => c :: replaceGMT repl cs

/-- The proxy on `Date.prototype.toString` / `toTimeString`, applied to the
string `result` the original returned. -/
def dateToString (P : TimezoneProfile) (result : String) : String :=
  let tzAbbr := getTimezoneAbbreviation P
  let gmtOffset := getGMTOffset P
  String.mk (replaceGMT ("GMT" ++ gmtOffset ++ " (" ++ tzAbbr ++ ")").data result.data)

/-- The JavaScript values a `timeZone` option can hold. -/
inductive JSValue where
  | undefined
  | null
  | boolean (b : Bool)
  | nan
  | number (q : ℚ)
  | string (s : String)
  | object (ref : ℕ)
  deriving DecidableEq

/-- JavaScript truthiness (`!v` is its negation). -/
def JSValue.truthy : JSValue → Bool
  | JSValue.undefined => false
  | JSValue.null => false
  | JSValue.boolean b => b
  | JSValue.nan => false
  | JSValue.number q => decide (q ≠ 0)
  | JSValue.string s => decide (s ≠ "")
  | JSValue.object _ => true

/-- An options object: its `timeZone` property (`undefined` when absent) and
its other properties. -/
structure Options (Rest : Type) where
  timeZone : JSValue
  rest : Rest

/-- The handler shared by the `toLocaleString`, `toLocaleDateString`,
`toLocaleTimeString` proxies and by the `construct` trap of the
`Intl.DateTimeFormat` proxy.  `locales` is `args[0]` (`none` when falsy),
`options` is `args[1]` (`none` when missing or falsy), `empty` the properties
of `{}`.  Returns the argument list `[locale, options]` handed to the
original. -/
def injectTimeZone {Rest : Type} (P : TimezoneProfile) (empty : Rest)
    (locales : Option String) (options : Option (Options Rest)) :
    String × Options Rest :=
  let locale := locales.getD P.locale
  let opts : Options Rest := options.getD { timeZone := JSValue.undefined, rest := empty }
  if opts.timeZone.truthy = false then
    (locale, { opts with timeZone := JSValue.string P.name })
  else (locale, opts)

/-- The `Date.prototype.toLocaleString` proxy's forwarded arguments. -/
def toLocaleString {Rest : Type} (P : TimezoneProfile) (empty : Rest)
    (locales : Option String) (options : Option (Options Rest)) : String × Options Rest :=
  injectTimeZone P empty locales options

/-- The `Date.prototype.toLocaleDateString` proxy's forwarded arguments. -/
def toLocaleDateString {Rest : Type} (P : TimezoneProfile) (empty : Rest)
    (locales : Option String) (options : Option (Options Rest)) : String × Options Rest :=
  injectTimeZone P empty locales options

/-- The `Date.prototype.toLocaleTimeString` proxy's forwarded arguments. -/
def toLocaleTimeString {Rest : Type} (P : TimezoneProfile) (empty : Rest)
    (locales : Option String) (options : Option (Options Rest)) : String × Options Rest :=
  injectTimeZone P empty locales options

/-- The `construct` trap of the `Intl.DateTimeFormat` proxy: the arguments of
`new target(locale, options)`. -/
def constructDateTimeFormat {Rest : Type} (P : TimezoneProfile) (empty : Rest)
    (locales : Option String) (options : Option (Options Rest)) : String × Options Rest :=
  injectTimeZone P empty locales options

/-- The object the original `resolvedOptions` returns: its `locale` and
`timeZone` properties and its other properties. -/
structure ResolvedOptions (Rest : Type) where
  locale : JSValue
  timeZone : JSValue
  rest : Rest

/-- The handler (lines 118-130) of the `resolvedOptions` proxy, applied to the
object `result` the original returned.  Whether the proxy is ever installed is
decided by `interceptIntlDateTimeFormat`. -/
def resolvedOptions {Rest : Type} (P : TimezoneProfile) (result : ResolvedOptions Rest) :
    ResolvedOptions Rest :=
  let r1 : ResolvedOptions Rest := { result with timeZone := JSValue.string P.name }
  if r1.locale.truthy = false ∨ r1.locale = JSValue.string "en-US" then
    { r1 with locale := JSValue.string P.locale }
  else r1

/-- The handler (lines 141-153) of the `supportedLocalesOf` proxy; whether the
proxy is ever installed is decided by `interceptIntlDateTimeFormat`.
`requested` is `args[0]` when it is an
array (`none` otherwise), `result` the array the original returned;
`Array.prototype.includes` compares with SameValueZero, which on the values
of `JSValue` is equality. -/
def supportedLocalesOf (P : TimezoneProfile) (requested : Option (List JSValue))
    (result : List String) : List String :=
  match requested with
  | some locales =>
      if JSValue.string P.locale ∈ locales then
        if P.locale ∈ result then result else result ++ [P.locale]
      else result
  | none => result

/-- An object of the JavaScript heap as `[[SetPrototypeOf]]` sees it: an
ordinary object with its `[[Prototype]]` and `[[Extensible]]` slots, or a
proxy whose handler has no `setPrototypeOf` trap, with its target.  Objects
are named by their index in the heap. -/
inductive HeapObject where
  | ordinary (proto : Option ℕ) (extensible : Bool)
  | proxy (target : ℕ)

/-- The loop of OrdinarySetPrototypeOf that walks the prototype chain from `p`
and reports whether it meets the object `o` (a cycle); it stops at `null` and
at a proxy. -/
def prototypeChainReaches (heap : List HeapObject) (o : ℕ) : ℕ → Option ℕ → Bool
  | 0, _ => false
  | _ + 1, none => false
  | fuel + 1, some p =>
      if p = o then true
      else
        match heap.get? p with
        | some (HeapObject.ordinary proto _) => prototypeChainReaches heap o fuel proto
        | _ => false

/-- OrdinarySetPrototypeOf(O, V): success flag and the heap afterwards. -/
def ordinarySetPrototypeOf (heap : List HeapObject) (o : ℕ) (v : Option ℕ) :
    Bool × List HeapObject :=
  match heap.get? o with
  | some (HeapObject.ordinary current extensible) =>
      if v = current then (true, heap)
      else if extensible = false then (false, heap)
      else if prototypeChainReaches heap o heap.length v then (false, heap)
      else (true, heap.set o (HeapObject.ordinary v extensible))
  | _ => (false, heap)

/-- The `[[SetPrototypeOf]]` internal method: a proxy without the trap
forwards to its target. -/
def internalSetPrototypeOf (heap : List HeapObject) : ℕ → ℕ → Option ℕ →
    Bool × List HeapObject
  | 0, _, _ => (false, heap)
  | fuel + 1, o, v =>
      match heap.get? o with
      | some (HeapObject.proxy target) => internalSetPrototypeOf heap fuel target v
      | _ => ordinarySetPrototypeOf heap o v

/-- `Object.setPrototypeOf(O, proto)`: the heap afterwards, or `none` when it
throws `TypeError` because `[[SetPrototypeOf]]` returned `false`. -/
def objectSetPrototypeOf (heap : List HeapObject) (o : ℕ) (proto : Option ℕ) :
    Option (List HeapObject) :=
  let r := internalSetPrototypeOf heap (heap.length + 1) o proto
  if r.1 = true then some r.2 else none

/-- The heap when line 107 of `interceptIntlDateTimeFormat` runs:
`Object.prototype` (0), `Function.prototype` (1), `OriginalDateTimeFormat`
(2), and the proxy of line 92 now held by `Intl.DateTimeFormat` (3). -/
def intlHeap : List HeapObject :=
  [HeapObject.ordinary none true,
   HeapObject.ordinary (some 0) true,
   HeapObject.ordinary (some 1) true,
   HeapObject.proxy 2]

/-- Which substitutions of `interceptIntlDateTimeFormat` are in place. -/
structure IntlInstalled where
  construct : Bool
  resolvedOptions : Bool
  supportedLocalesOf : Bool
  deriving DecidableEq

/-- `interceptIntlDateTimeFormat()`: what it installed and whether it threw.
Line 92 replaces `Intl.DateTimeFormat` by the proxy; line 107 calls
`Object.setPrototypeOf(Intl.DateTimeFormat, OriginalDateTimeFormat)`, that is
on the proxy with its own target as the new prototype; the function has no
`try`, so when that call throws the lines after it (the `resolvedOptions` and
`supportedLocalesOf` proxies) do not run. -/
def interceptIntlDateTimeFormat : IntlInstalled × Bool :=
  match objectSetPrototypeOf intlHeap 3 (some 2) with
  | none => (⟨true, false, false⟩, true)
  | some _ => (⟨true, true, true⟩, false)

/-- What a page call of `resolvedOptions()` returns: the handler's result when
the proxy is installed, the original's result otherwise. -/
def pageResolvedOptions {Rest : Type} (P : TimezoneProfile) (installed : IntlInstalled)
    (result : ResolvedOptions Rest) : ResolvedOptions Rest :=
  if installed.resolvedOptions = true then resolvedOptions P result else result

/-- What a page call of `Intl.DateTimeFormat.supportedLocalesOf(...)` returns:
the handler's result when the proxy is installed, the original's result
otherwise. -/
def pageSupportedLocalesOf (P : TimezoneProfile) (installed : IntlInstalled)
    (requested : Option (List JSValue)) (result : List String) : List String :=
  if installed.supportedLocalesOf = true then supportedLocalesOf P requested result
  else result

/-- The character of the decimal digit `d`. -/
def digitChar (d : ℕ) : Char := Char.ofNat (48 + d)

/-- The value of a decimal digit character. -/
def digitValue (c : Char) : ℕ := c.toNat - 48

/-- A signed `HHMM` string read back as minutes: sign, two digits of hours,
two digits of minutes. -/
def readSignedHHMM (s : String) : Option ℤ :=
  match s.data with
  | [sg, a, b, c, d] =>
      if (sg = '+' ∨ sg = '-') ∧ a.isDigit = true ∧ b.isDigit = true ∧ c.isDigit = true ∧
          d.isDigit = true then
        some ((if sg = '+' then 1 else -1) *
          (((digitValue a * 10 + digitValue b) * 60 + (digitValue c * 10 + digitValue d) : ℕ) : ℤ))
      else none
  | _ => none

/-! ### audio.js, continued (uses `JSValue`) -/

/-- The `OscillatorNode.prototype.start` proxy: the argument list handed to
the original and the stream position.  `typeof args[0] === 'number'` holds for
a number and for `NaN`; `NaN += x` stays `NaN` but the draw is made. -/
def oscillatorStart (rng : ℕ → ℚ) (args : List JSValue) (pos : ℕ) : List JSValue × ℕ :=
  match args with
  | JSValue.number t :: rest =>
      (JSValue.number (t + (rng pos - 1 / 2) * (1 / 10000)) :: rest, pos + 1)
  | JSValue.nan :: rest => (JSValue.nan :: rest, pos + 1)
  | _ => (args, pos)

/-! ## Auxiliary facts -/

theorem clamp_nonneg (v : ℚ) : 0 ≤ clamp v := by
  unfold clamp
  exact le_max_left _ _

theorem clamp_le (v : ℚ) : clamp v ≤ 255 := by
  unfold clamp
  exact max_le (by norm_num) (min_le_left _ _)

/-- The integer part of `min(255, sqrt q)` computed with natural-number
arithmetic. -/
theorem floor_min_sqrt (q : ℚ) (hq : 0 ≤ q) :
    ⌊min (255 : ℝ) (Real.sqrt (q : ℝ))⌋₊ = min 255 (Nat.sqrt ⌊q⌋₊) := by
  have hq' : (0 : ℝ) ≤ (q : ℝ) := by exact_mod_cast hq
  apply eq_of_forall_le_iff
  intro k
  have h0 : (0 : ℝ) ≤ min (255 : ℝ) (Real.sqrt (q : ℝ)) :=
    le_min (by norm_num) (Real.sqrt_nonneg _)
  have hk : (k : ℝ) ≤ Real.sqrt (q : ℝ) ↔ k * k ≤ ⌊q⌋₊ := by
    rw [Nat.le_floor_iff hq, Real.le_sqrt (Nat.cast_nonneg k) hq', pow_two]
    constructor
    · intro h
      have : (((k * k : ℕ) : ℚ) : ℝ) ≤ (q : ℝ) := by push_cast; exact h
      exact_mod_cast this
    · intro h
      have : (((k * k : ℕ) : ℚ) : ℝ) ≤ (q : ℝ) := by exact_mod_cast h
      push_cast at this
      exact this
  rw [Nat.le_floor_iff h0, le_min_iff, le_min_iff, Nat.le_sqrt, hk]
  constructor
  · rintro ⟨h1, h2⟩
    exact ⟨by exact_mod_cast h1, h2⟩
  · rintro ⟨h1, h2⟩
    exact ⟨by exact_mod_cast h1, h2⟩

/-- The stored edge value is the integer part of `min(255, sqrt(gx² + gy²))`. -/
theorem storedMagnitude_eq_floor (data : List ℤ) (width x y : ℕ) :
    storedMagnitude data width x y =
      ⌊min (255 : ℝ) (Real.sqrt (((sobelX data width x y) ^ 2 + (sobelY data width x y) ^ 2 : ℚ) : ℝ))⌋₊ := by
  rw [floor_min_sqrt _ (by positivity)]
  simp only [storedMagnitude, pow_two]

theorem length_foldl_set {α ι : Type} (idx : ι → ℕ) (val : ι → α) (ks : List ι)
    (init : List α) :
    (ks.foldl (fun e k => e.set (idx k) (val k)) init).length = init.length := by
  induction ks generalizing init with
  | nil => rfl
  | cons k ks ih => simp [List.foldl_cons, ih]

/-- A loop of stores whose value is a function `F` of the index: afterwards a
cell holds `F` of its index when some iteration addressed it, and its initial
content otherwise. -/
theorem getD_foldl_set {α ι : Type} (F : ℕ → α) (idx : ι → ℕ) (val : ι → α)
    (ks : List ι) (hval : ∀ k ∈ ks, val k = F (idx k)) (init : List α) (p : ℕ) (d : α) :
    (ks.foldl (fun e k => e.set (idx k) (val k)) init).getD p d =
      if (∃ k ∈ ks, idx k = p) ∧ p < init.length then F p else init.getD p d := by
  induction ks generalizing init with
  | nil => simp
  | cons k ks ih =>
    rw [List.foldl_cons, ih (fun j hj => hval j (List.mem_cons_of_mem _ hj))]
    simp only [List.length_set, List.mem_cons, exists_eq_or_imp]
    by_cases hp : p < init.length
    · by_cases h1 : ∃ j ∈ ks, idx j = p
      · simp [h1, hp]
      · by_cases h2 : idx k = p
        · subst h2
          simp [h1, hp, hval k (List.mem_cons_self _ _), List.getD_eq_getElem?_getD,
            List.getElem?_set]
        · simp [h1, h2, hp, List.getD_eq_getElem?_getD, List.getElem?_set]
    · have hp' : init.length ≤ p := not_lt.mp hp
      simp [hp, List.getD_eq_getElem?_getD, List.getElem?_eq_none, hp']

theorem ite_ite_or {α : Type} (A B C : Prop) [Decidable A] [Decidable B] [Decidable C]
    (u v : α) :
    (if A ∧ C then u else if B ∧ C then u else v) = if (B ∨ A) ∧ C then u else v := by
  by_cases hA : A <;> by_cases hB : B <;> by_cases hC : C <;> simp [hA, hB, hC]

theorem length_detectEdgesRow (data : List ℤ) (width : ℕ) (edges : List ℕ) (y : ℕ) :
    (detectEdgesRow data width edges y).length = edges.length := by
  unfold detectEdgesRow
  exact length_foldl_set _ _ _ _

theorem length_foldl_detectEdgesRow (data : List ℤ) (width : ℕ) (ys : List ℕ)
    (init : List ℕ) :
    (ys.foldl (detectEdgesRow data width) init).length = init.length := by
  induction ys generalizing init with
  | nil => rfl
  | cons y ys ih => rw [List.foldl_cons, ih, length_detectEdgesRow]

/-- The pixel coordinates are recovered from the linear index. -/
theorem index_div_mod (width x y : ℕ) (hx : x < width) :
    (y * width + x) / width = y ∧ (y * width + x) % width = x := by
  have hw : 0 < width := by omega
  constructor
  · rw [Nat.add_comm, Nat.add_mul_div_right _ _ hw, Nat.div_eq_of_lt hx, Nat.zero_add]
  · rw [Nat.add_comm, Nat.add_mul_mod_self_right, Nat.mod_eq_of_lt hx]

theorem getD_detectEdgesRow (data : List ℤ) (width : ℕ) (edges : List ℕ) (y p : ℕ) :
    (detectEdgesRow data width edges y).getD p 0 =
      if (∃ x ∈ List.range' 1 (width - 2), y * width + x = p) ∧ p < edges.length then
        storedMagnitude data width (p % width) (p / width)
      else edges.getD p 0 := by
  unfold detectEdgesRow
  rw [getD_foldl_set (fun q => storedMagnitude data width (q % width) (q / width))]
  intro k hk
  rw [List.mem_range'_1] at hk
  have hkw : k < width := by omega
  obtain ⟨h1, h2⟩ := index_div_mod width k y hkw
  simp only [h1, h2]

theorem getD_foldl_detectEdgesRow (data : List ℤ) (width : ℕ) (ys : List ℕ)
    (init : List ℕ) (p : ℕ) :
    (ys.foldl (detectEdgesRow data width) init).getD p 0 =
      if (∃ y ∈ ys, ∃ x ∈ List.range' 1 (width - 2), y * width + x = p) ∧ p < init.length then
        storedMagnitude data width (p % width) (p / width)
      else init.getD p 0 := by
  induction ys generalizing init with
  | nil => simp
  | cons y ys ih =>
    rw [List.foldl_cons, ih, length_detectEdgesRow, getD_detectEdgesRow]
    simp only [List.mem_cons, exists_eq_or_imp]
    exact ite_ite_or _ _ _ _ _

theorem length_detectEdges (data : List ℤ) (width height : ℕ) :
    (detectEdges data width height).length = width * height := by
  unfold detectEdges
  rw [length_foldl_detectEdgesRow, List.length_replicate]

/-- The edge map pixel by pixel: the stored magnitude in the interior, zero on
the border. -/
theorem getD_detectEdges (data : List ℤ) (width height x y : ℕ)
    (hx : x < width) (hy : y < height) :
    (detectEdges data width height).getD (y * width + x) 0 =
      if 1 ≤ x ∧ x + 1 < width ∧ 1 ≤ y ∧ y + 1 < height then
        storedMagnitude data width x y
      else 0 := by
  unfold detectEdges
  rw [getD_foldl_detectEdgesRow, List.length_replicate]
  obtain ⟨h1, h2⟩ := index_div_mod width x y hx
  have hlt : y * width + x < width * height := by
    calc y * width + x < y * width + width := by omega
      _ = width * (y + 1) := by ring
      _ ≤ width * height := Nat.mul_le_mul_left _ hy
  have hiff : (∃ y' ∈ List.range' 1 (height - 2),
        ∃ x' ∈ List.range' 1 (width - 2), y' * width + x' = y * width + x) ↔
      (1 ≤ x ∧ x + 1 < width ∧ 1 ≤ y ∧ y + 1 < height) := by
    constructor
    · rintro ⟨y', hy', x', hx', he⟩
      rw [List.mem_range'_1] at hy' hx'
      obtain ⟨e1, e2⟩ := index_div_mod width x' y' (by omega)
      rw [he, h1] at e1
      rw [he, h2] at e2
      subst e1 e2
      omega
    · rintro ⟨a, b, c, d⟩
      exact ⟨y, by rw [List.mem_range'_1]; omega, x, by rw [List.mem_range'_1]; omega, rfl⟩
  simp only [hiff, hlt, and_true, h1, h2]
  split_ifs <;> simp [List.getD_eq_getElem?_getD]

theorem getD_set_eq {α : Type} (l : List α) (i j : ℕ) (a d : α) :
    (l.set i a).getD j d = if i = j ∧ j < l.length then a else l.getD j d := by
  simp only [List.getD_eq_getElem?_getD, List.getElem?_set]
  by_cases h : i = j
  · subst h
    by_cases hl : i < l.length
    · simp [hl]
    · simp [hl, List.getElem?_eq_none (not_lt.mp hl)]
  · simp [h]

/-- The three stores of one noised pixel starting at index `i`. -/
theorem getD_set_rgb (d : List ℤ) (i j : ℕ) (noise : ℚ) :
    (((d.set i (clamp (d.getD i 0 + noise))).set (i + 1)
        (clamp ((d.set i (clamp (d.getD i 0 + noise))).getD (i + 1) 0 + noise))).set (i + 2)
        (clamp ((((d.set i (clamp (d.getD i 0 + noise))).set (i + 1)
          (clamp ((d.set i (clamp (d.getD i 0 + noise))).getD (i + 1) 0 + noise))).getD
            (i + 2) 0 : ℤ) + noise))).getD j 0 =
      if i ≤ j ∧ j < i + 3 ∧ j < d.length then clamp (d.getD j 0 + noise) else d.getD j 0 := by
  simp only [getD_set_eq, List.length_set]
  have e1 : ¬ (i = i + 1) := by omega
  have e2 : ¬ (i = i + 2) := by omega
  have e3 : ¬ (i + 1 = i + 2) := by omega
  simp only [e1, e2, e3, false_and, if_false]
  by_cases h0 : i = j
  · subst h0
    by_cases hl : i < d.length
    · have : ¬ (i + 1 = i) := by omega
      have : ¬ (i + 2 = i) := by omega
      simp [*]
    · have : ¬ (i + 1 = i) := by omega
      have : ¬ (i + 2 = i) := by omega
      simp [*]
  · by_cases h1 : i + 1 = j
    · subst h1
      by_cases hl : i + 1 < d.length
      · simp [*]
      · simp [*]
    · by_cases h2 : i + 2 = j
      · subst h2
        by_cases hl : i + 2 < d.length
        · simp [*]
        · simp [*]
      · have : ¬ (i ≤ j ∧ j < i + 3 ∧ j < d.length) := by omega
        simp [*]

theorem edgeNoiseStep_snd (P : CanvasProfile) (rng : ℕ → ℚ) (edges : List ℕ)
    (st : List ℤ × ℕ) (i : ℕ) :
    (edgeNoiseStep P rng edges st i).2 =
      st.2 + if edges.getD i 0 > 128 then 1 else 0 := by
  unfold edgeNoiseStep
  split_ifs <;> simp

theorem edgeNoiseStep_length (P : CanvasProfile) (rng : ℕ → ℚ) (edges : List ℕ)
    (st : List ℤ × ℕ) (i : ℕ) :
    (edgeNoiseStep P rng edges st i).1.length = st.1.length := by
  unfold edgeNoiseStep
  split_ifs <;> simp

theorem edgeNoiseStep_getD (P : CanvasProfile) (rng : ℕ → ℚ) (edges : List ℕ)
    (st : List ℤ × ℕ) (i j : ℕ) :
    (edgeNoiseStep P rng edges st i).1.getD j 0 =
      if edges.getD i 0 > 128 ∧ i * 4 ≤ j ∧ j < i * 4 + 3 ∧ j < st.1.length then
        clamp (st.1.getD j 0 + (rng st.2 - 1 / 2) * P.noise * 255)
      else st.1.getD j 0 := by
  unfold edgeNoiseStep
  by_cases h : edges.getD i 0 > 128
  · simp only [h, if_true, true_and]
    exact getD_set_rgb _ _ _ _
  · rw [if_neg h, if_neg (fun hh => h hh.1)]

theorem edgeCount_succ (edges : List ℕ) (n : ℕ) :
    edgeCount edges (n + 1) = edgeCount edges n + if edges.getD n 0 > 128 then 1 else 0 := by
  unfold edgeCount
  rw [List.range_succ, List.filter_append, List.length_append]
  by_cases h : edges.getD n 0 > 128
  · have hd : decide (edges.getD n 0 > 128) = true := decide_eq_true h
    simp only [List.filter_cons, List.filter_nil, hd, if_true, List.length_singleton, if_pos h]
  · have hd : decide (edges.getD n 0 > 128) = false := decide_eq_false h
    simp only [List.filter_cons, List.filter_nil, hd, List.length_nil, if_neg h]
    rfl

/-- The state of the edge-noise loop after its first `n` iterations. -/
theorem edgeNoise_prefix (P : CanvasProfile) (rng : ℕ → ℚ) (edges : List ℕ)
    (data : List ℤ) (pos n : ℕ) :
    ((List.range n).foldl (edgeNoiseStep P rng edges) (data, pos)).2 = pos + edgeCount edges n ∧
    ((List.range n).foldl (edgeNoiseStep P rng edges) (data, pos)).1.length = data.length ∧
    ∀ j, ((List.range n).foldl (edgeNoiseStep P rng edges) (data, pos)).1.getD j 0 =
      if j / 4 < n ∧ edges.getD (j / 4) 0 > 128 ∧ j % 4 < 3 ∧ j < data.length then
        clamp (data.getD j 0 + (rng (pos + edgeCount edges (j / 4)) - 1 / 2) * P.noise * 255)
      else data.getD j 0 := by
  induction n with
  | zero => simp [edgeCount]
  | succ n ih =>
    obtain ⟨ih1, ih2, ih3⟩ := ih
    rw [List.range_succ, List.foldl_append, List.foldl_cons, List.foldl_nil]
    refine ⟨?_, ?_, ?_⟩
    · rw [edgeNoiseStep_snd, ih1, edgeCount_succ, Nat.add_assoc]
    · rw [edgeNoiseStep_length, ih2]
    · intro j
      rw [edgeNoiseStep_getD, ih3, ih2, ih1]
      by_cases hj : j / 4 = n
      · have h1 : ¬ (j / 4 < n) := by omega
        have h2 : j / 4 < n + 1 := by omega
        have h3 : (n * 4 ≤ j ∧ j < n * 4 + 3) ↔ j % 4 < 3 := by omega
        simp only [h1, h2, false_and, if_false, true_and]
        subst hj
        by_cases he : edges.getD (j / 4) 0 > 128
        · by_cases hm : j % 4 < 3
          · have h4 : j / 4 * 4 ≤ j ∧ j < j / 4 * 4 + 3 := by omega
            simp only [he, hm, h4, true_and]
          · have h4 : ¬ (j < j / 4 * 4 + 3) := by omega
            simp only [he, hm, h4, false_and, and_false, if_false]
        · simp only [he, false_and, if_false]
      · have h3 : ¬ (n * 4 ≤ j ∧ j < n * 4 + 3) := by omega
        have h4 : (j / 4 < n + 1) ↔ (j / 4 < n) := by omega
        have h5 : ¬ (edges.getD n 0 > 128 ∧ n * 4 ≤ j ∧ j < n * 4 + 3 ∧ j < data.length) := by
          tauto
        rw [if_neg h5]
        simp only [h4]

/-- The result of the edge-noise loop, channel by channel. -/
theorem applyEdgeNoise_spec (P : CanvasProfile) (rng : ℕ → ℚ) (edges : List ℕ)
    (data : List ℤ) (pos : ℕ) :
    (applyEdgeNoise P rng edges data pos).2 = pos + edgeCount edges edges.length ∧
    (applyEdgeNoise P rng edges data pos).1.length = data.length ∧
    ∀ j, (applyEdgeNoise P rng edges data pos).1.getD j 0 =
      if j / 4 < edges.length ∧ edges.getD (j / 4) 0 > 128 ∧ j % 4 < 3 ∧ j < data.length then
        clamp (data.getD j 0 + (rng (pos + edgeCount edges (j / 4)) - 1 / 2) * P.noise * 255)
      else data.getD j 0 :=
  edgeNoise_prefix P rng edges data pos edges.length

theorem imageDataNoiseStep_getD (P : CanvasProfile) (rng : ℕ → ℚ)
    (st : List ℤ × ℕ) (k j : ℕ) :
    (imageDataNoiseStep P rng st k).1.getD j 0 =
      if 4 * k ≤ j ∧ j < 4 * k + 3 ∧ j < st.1.length then
        clamp (st.1.getD j 0 + (rng st.2 - 1 / 2) * P.noise * 50)
      else st.1.getD j 0 := by
  unfold imageDataNoiseStep
  exact getD_set_rgb _ _ _ _

/-- The state of the loop of `applyImageDataNoise` after its first `n`
iterations. -/
theorem imageDataNoise_prefix (P : CanvasProfile) (rng : ℕ → ℚ)
    (data : List ℤ) (pos n : ℕ) :
    ((List.range n).foldl (imageDataNoiseStep P rng) (data, pos)).2 = pos + n ∧
    ((List.range n).foldl (imageDataNoiseStep P rng) (data, pos)).1.length = data.length ∧
    ∀ j, ((List.range n).foldl (imageDataNoiseStep P rng) (data, pos)).1.getD j 0 =
      if j / 4 < n ∧ j % 4 < 3 ∧ j < data.length then
        clamp (data.getD j 0 + (rng (pos + j / 4) - 1 / 2) * P.noise * 50)
      else data.getD j 0 := by
  induction n with
  | zero => simp
  | succ n ih =>
    obtain ⟨ih1, ih2, ih3⟩ := ih
    rw [List.range_succ, List.foldl_append, List.foldl_cons, List.foldl_nil]
    refine ⟨?_, ?_, ?_⟩
    · simp only [imageDataNoiseStep, ih1, Nat.add_assoc]
    · simp only [imageDataNoiseStep, List.length_set, ih2]
    · intro j
      rw [imageDataNoiseStep_getD, ih3, ih2, ih1]
      by_cases hj : j / 4 = n
      · have h1 : ¬ (j / 4 < n) := by omega
        have h2 : j / 4 < n + 1 := by omega
        simp only [h1, h2, false_and, if_false, true_and]
        subst hj
        by_cases hm : j % 4 < 3
        · have h4 : 4 * (j / 4) ≤ j ∧ j < 4 * (j / 4) + 3 := by omega
          simp only [hm, h4, true_and]
        · have h4 : ¬ (j < 4 * (j / 4) + 3) := by omega
          simp only [hm, h4, false_and, and_false, if_false]
      · have h3 : ¬ (4 * n ≤ j ∧ j < 4 * n + 3 ∧ j < data.length) := by omega
        have h4 : (j / 4 < n + 1) ↔ (j / 4 < n) := by omega
        rw [if_neg h3]
        simp only [h4]

/-- The result of `applyImageDataNoise`, channel by channel. -/
theorem applyImageDataNoise_spec (P : CanvasProfile) (rng : ℕ → ℚ)
    (data : List ℤ) (pos : ℕ) :
    (applyImageDataNoise P rng data pos).2 = pos + (data.length + 3) / 4 ∧
    (applyImageDataNoise P rng data pos).1.length = data.length ∧
    ∀ j, (applyImageDataNoise P rng data pos).1.getD j 0 =
      if j % 4 < 3 ∧ j < data.length then
        clamp (data.getD j 0 + (rng (pos + j / 4) - 1 / 2) * P.noise * 50)
      else data.getD j 0 := by
  obtain ⟨h1, h2, h3⟩ := imageDataNoise_prefix P rng data pos ((data.length + 3) / 4)
  refine ⟨h1, h2, ?_⟩
  intro j
  rw [show applyImageDataNoise P rng data pos =
    (List.range ((data.length + 3) / 4)).foldl (imageDataNoiseStep P rng) (data, pos) from rfl,
    h3 j]
  by_cases hj : j < data.length
  · have : j / 4 < (data.length + 3) / 4 := by omega
    simp only [this, true_and]
  · simp only [hj, and_false, if_false]

theorem mem_iff_getD {l : List ℤ} {v : ℤ} (h : v ∈ l) : ∃ j, j < l.length ∧ l.getD j 0 = v := by
  obtain ⟨j, hj, e⟩ := List.getElem_of_mem h
  exact ⟨j, hj, by simp [List.getD_eq_getElem?_getD, List.getElem?_eq_getElem hj, e]⟩

theorem getD_mem {l : List ℤ} {j : ℕ} (h : j < l.length) : l.getD j 0 ∈ l := by
  simp [List.getD_eq_getElem?_getD, List.getElem?_eq_getElem h]

/-! ## Pixel bounds -/

/-- C2. Pixel bounds: `clamp(v)` is an integer in `[0,255]` for every `v`;
every red, green or blue channel the edge-noise loop of `applyCanvasNoise`
writes (pixels whose edge value exceeds 128) and every one the loop of
`applyImageDataNoise` writes is in `[0,255]`; and a buffer whose channels all
lie in `[0,255]` still has all its channels in `[0,255]` after either loop.
This holds for every noise level and every stream. -/
theorem pixel_bounds (P : CanvasProfile) (rng : ℕ → ℚ) (edges : List ℕ) (data : List ℤ)
    (pos : ℕ) (hlen : data.length = 4 * edges.length)
    (hdata : ∀ v ∈ data, 0 ≤ v ∧ v ≤ 255) :
    (∀ v : ℚ, 0 ≤ clamp v ∧ clamp v ≤ 255) ∧
    (∀ i < edges.length, 128 < edges.getD i 0 → ∀ c < 3,
      0 ≤ (applyEdgeNoise P rng edges data pos).1.getD (4 * i + c) 0 ∧
      (applyEdgeNoise P rng edges data pos).1.getD (4 * i + c) 0 ≤ 255) ∧
    (∀ j < data.length, j % 4 < 3 →
      0 ≤ (applyImageDataNoise P rng data pos).1.getD j 0 ∧
      (applyImageDataNoise P rng data pos).1.getD j 0 ≤ 255) ∧
    (∀ v ∈ (applyEdgeNoise P rng edges data pos).1, 0 ≤ v ∧ v ≤ 255) ∧
    (∀ v ∈ (applyImageDataNoise P rng data pos).1, 0 ≤ v ∧ v ≤ 255) := by
  obtain ⟨-, e2, e3⟩ := applyEdgeNoise_spec P rng edges data pos
  obtain ⟨-, g2, g3⟩ := applyImageDataNoise_spec P rng data pos
  refine ⟨fun v => ⟨clamp_nonneg v, clamp_le v⟩, ?_, ?_, ?_, ?_⟩
  · intro i hi he c hc
    have h1 : (4 * i + c) / 4 = i := by omega
    have h2 : (4 * i + c) % 4 < 3 := by omega
    have h3 : 4 * i + c < data.length := by omega
    rw [e3, h1, if_pos ⟨hi, he, h2, h3⟩]
    exact ⟨clamp_nonneg _, clamp_le _⟩
  · intro j hj hm
    rw [g3, if_pos ⟨hm, hj⟩]
    exact ⟨clamp_nonneg _, clamp_le _⟩
  · intro v hv
    obtain ⟨j, hj, rfl⟩ := mem_iff_getD hv
    rw [e2] at hj
    rw [e3]
    split_ifs
    · exact ⟨clamp_nonneg _, clamp_le _⟩
    · exact hdata _ (getD_mem hj)
  · intro v hv
    obtain ⟨j, hj, rfl⟩ := mem_iff_getD hv
    rw [g2] at hj
    rw [g3]
    split_ifs
    · exact ⟨clamp_nonneg _, clamp_le _⟩
    · exact hdata _ (getD_mem hj)

/-- Witness for `pixel_bounds`: one edge pixel, noise level 1, a draw of 0. -/
theorem pixel_bounds_witness :
    ([10, 20, 30, 255] : List ℤ).length = 4 * ([200] : List ℕ).length ∧
    (∀ v ∈ ([10, 20, 30, 255] : List ℤ), 0 ≤ v ∧ v ≤ 255) ∧
    (∀ v ∈ (applyEdgeNoise ⟨1, 0, 0⟩ (fun _ => 0) [200] [10, 20, 30, 255] 0).1,
      0 ≤ v ∧ v ≤ 255) :=
  ⟨by decide, by decide,
    (pixel_bounds ⟨1, 0, 0⟩ (fun _ => 0) [200] [10, 20, 30, 255] 0 (by decide)
      (by decide)).2.2.2.1⟩

/-! ## The selective-noise loop -/

/-- C9. Selective noise frame: on a buffer of four channels per edge-map
entry, the edge-noise loop of `applyCanvasNoise` (a) leaves all four channels
of a pixel whose edge value is at most 128 unchanged, (b) leaves every alpha
channel unchanged, (c) sets red, green and blue of a pixel `i` whose edge value
exceeds 128 to `clamp(old + n)` with the one value
`n = (r - 0.5) * noiseLevel * 255`, where `r` is the draw number
`edgeCount edges i` after the starting position (one draw per edge pixel, in
index order), and in total advances the stream by the number of edge pixels
and keeps the buffer length. -/
theorem selective_noise_frame (P : CanvasProfile) (rng : ℕ → ℚ) (edges : List ℕ)
    (data : List ℤ) (pos : ℕ) (hlen : data.length = 4 * edges.length) :
    (∀ i < edges.length, edges.getD i 0 ≤ 128 → ∀ c < 4,
      (applyEdgeNoise P rng edges data pos).1.getD (4 * i + c) 0 = data.getD (4 * i + c) 0) ∧
    (∀ i < edges.length,
      (applyEdgeNoise P rng edges data pos).1.getD (4 * i + 3) 0 = data.getD (4 * i + 3) 0) ∧
    (∀ i < edges.length, 128 < edges.getD i 0 → ∀ c < 3,
      (applyEdgeNoise P rng edges data pos).1.getD (4 * i + c) 0 =
        clamp (data.getD (4 * i + c) 0 +
          (rng (pos + edgeCount edges i) - 1 / 2) * P.noise * 255)) ∧
    (applyEdgeNoise P rng edges data pos).2 = pos + edgeCount edges edges.length ∧
    (applyEdgeNoise P rng edges data pos).1.length = data.length := by
  obtain ⟨e1, e2, e3⟩ := applyEdgeNoise_spec P rng edges data pos
  refine ⟨?_, ?_, ?_, e1, e2⟩
  · intro i _ he c hc
    have h1 : (4 * i + c) / 4 = i := by omega
    rw [e3, h1, if_neg]
    intro h
    exact absurd h.2.1 (by omega)
  · intro i _
    have h2 : ¬ ((4 * i + 3) % 4 < 3) := by omega
    rw [e3, if_neg]
    intro h
    exact h2 h.2.2.1
  · intro i hi he c hc
    have h1 : (4 * i + c) / 4 = i := by omega
    have h2 : (4 * i + c) % 4 < 3 := by omega
    have h3 : 4 * i + c < data.length := by omega
    rw [e3, h1, if_pos ⟨hi, he, h2, h3⟩]

/-- Witness for `selective_noise_frame`: two pixels, the second one an edge. -/
theorem selective_noise_frame_witness :
    ([10, 20, 30, 255, 40, 50, 60, 255] : List ℤ).length = 4 * ([0, 200] : List ℕ).length ∧
    (applyEdgeNoise ⟨1, 0, 0⟩ (fun _ => 0) [0, 200] [10, 20, 30, 255, 40, 50, 60, 255] 7).2 =
      7 + edgeCount [0, 200] ([0, 200] : List ℕ).length :=
  ⟨by decide,
    (selective_noise_frame ⟨1, 0, 0⟩ (fun _ => 0) [0, 200] [10, 20, 30, 255, 40, 50, 60, 255] 7
      (by decide)).2.2.2.1⟩

/-! ## Edge detection -/

theorem index_lt (width height x y : ℕ) (hx : x < width) (hy : y < height) :
    y * width + x < width * height := by
  calc y * width + x < y * width + width := by omega
    _ = width * (y + 1) := by ring
    _ ≤ width * height := Nat.mul_le_mul_left _ hy

theorem getPixelBrightness_eq_spec (data : List ℤ) (width x y : ℕ) :
    getPixelBrightness data (y * width + x) = specBrightness data width x y := by
  simp only [getPixelBrightness, specBrightness, pixelRGB, Nat.mul_comm (y * width + x) 4]
  push_cast
  rfl

theorem sobelX_eq_spec (data : List ℤ) (width x y : ℕ) (hx : 1 ≤ x) (hy : 1 ≤ y) :
    sobelX data width x y = specKernelResponse sobelKernelX data width x y := by
  have a1 : x + 1 - 1 = x := by omega
  have a2 : x + 2 - 1 = x + 1 := by omega
  have b1 : y + 1 - 1 = y := by omega
  have b2 : y + 2 - 1 = y + 1 := by omega
  simp only [sobelX, specKernelResponse, sobelKernelX, getPixelBrightness_eq_spec,
    List.range, List.range.loop, List.map_cons, List.map_nil, List.sum_cons, List.sum_nil,
    List.getD_cons_zero, List.getD_cons_succ, Nat.add_zero, a1, a2, b1, b2]
  ring

theorem sobelY_eq_spec (data : List ℤ) (width x y : ℕ) (hx : 1 ≤ x) (hy : 1 ≤ y) :
    sobelY data width x y = specKernelResponse sobelKernelY data width x y := by
  have a1 : x + 1 - 1 = x := by omega
  have a2 : x + 2 - 1 = x + 1 := by omega
  have b1 : y + 1 - 1 = y := by omega
  have b2 : y + 2 - 1 = y + 1 := by omega
  simp only [sobelY, specKernelResponse, sobelKernelY, getPixelBrightness_eq_spec,
    List.range, List.range.loop, List.map_cons, List.map_nil, List.sum_cons, List.sum_nil,
    List.getD_cons_zero, List.getD_cons_succ, Nat.add_zero, a1, a2, b1, b2]
  ring

/-- Both Sobel responses in terms of the brightness of the eight neighbours. -/
theorem sobel_eq (data : List ℤ) (width x y : ℕ) :
    sobelX data width x y =
      (specBrightness data width (x + 1) (y - 1) - specBrightness data width (x - 1) (y - 1)) +
      2 * (specBrightness data width (x + 1) y - specBrightness data width (x - 1) y) +
      (specBrightness data width (x + 1) (y + 1) - specBrightness data width (x - 1) (y + 1)) ∧
    sobelY data width x y =
      (specBrightness data width (x - 1) (y + 1) - specBrightness data width (x - 1) (y - 1)) +
      2 * (specBrightness data width x (y + 1) - specBrightness data width x (y - 1)) +
      (specBrightness data width (x + 1) (y + 1) - specBrightness data width (x + 1) (y - 1)) := by
  simp only [sobelX, sobelY, getPixelBrightness_eq_spec]
  constructor <;> ring

theorem storedMagnitude_eq_zero_iff (data : List ℤ) (width x y : ℕ) :
    storedMagnitude data width x y = 0 ↔
      sobelX data width x y * sobelX data width x y +
        sobelY data width x y * sobelY data width x y < 1 := by
  unfold storedMagnitude
  have hnn : (0 : ℚ) ≤ sobelX data width x y * sobelX data width x y +
      sobelY data width x y * sobelY data width x y :=
    add_nonneg (mul_self_nonneg _) (mul_self_nonneg _)
  simp only
  constructor
  · intro h
    have h1 : Nat.sqrt ⌊sobelX data width x y * sobelX data width x y +
        sobelY data width x y * sobelY data width x y⌋₊ = 0 := by
      rcases Nat.min_eq_zero_iff.mp h with h | h
      · omega
      · exact h
    rw [Nat.sqrt_eq_zero] at h1
    exact Nat.floor_eq_zero.mp h1
  · intro h
    rw [Nat.floor_eq_zero.mpr h]
    rfl

/-- C6. Solid colour gives no edges: when every pixel of the RGBA buffer has
the same red, green and blue, `detectEdges` returns the all-zero edge map, and
the edge-noise loop of `applyCanvasNoise` run on that map returns the buffer
and the stream position it was given (no pixel changed, no value drawn). -/
theorem solid_colour_no_edges (P : CanvasProfile) (rng : ℕ → ℚ) (width height : ℕ)
    (data : List ℤ) (colour : ℤ × ℤ × ℤ) (pos : ℕ)
    (hlen : data.length = 4 * (width * height))
    (hsolid : ∀ p < width * height, pixelRGB data p = colour) :
    detectEdges data width height = List.replicate (width * height) 0 ∧
    applyEdgeNoise P rng (detectEdges data width height) data pos = (data, pos) := by
  have _ := hlen
  have hz : detectEdges data width height = List.replicate (width * height) 0 := by
    apply List.ext_getElem
    · rw [length_detectEdges, List.length_replicate]
    · intro p h1 h2
      rw [length_detectEdges] at h1
      have hw : 0 < width := by
        rcases Nat.eq_zero_or_pos width with h | h
        · rw [h, Nat.zero_mul] at h1; omega
        · exact h
      have hx : p % width < width := Nat.mod_lt _ hw
      have hy : p / width < height := by
        rw [Nat.div_lt_iff_lt_mul hw, Nat.mul_comm]; exact h1
      have hp : p / width * width + p % width = p := Nat.div_add_mod' p width
      have key := getD_detectEdges data width height (p % width) (p / width) hx hy
      rw [hp] at key
      have hb : ∀ x' y', x' < width → y' < height →
          specBrightness data width x' y' = ((colour.1 + colour.2.1 + colour.2.2 : ℤ) : ℚ) / 3 := by
        intro x' y' hx' hy'
        simp only [specBrightness, hsolid _ (index_lt width height x' y' hx' hy')]
      have hval : (detectEdges data width height).getD p 0 = 0 := by
        rw [key]
        split_ifs with hint
        · rw [storedMagnitude_eq_zero_iff]
          obtain ⟨sx, sy⟩ := sobel_eq data width (p % width) (p / width)
          rw [sx, sy]
          rw [hb _ _ (by omega) (by omega), hb _ _ (by omega) (by omega),
            hb _ _ (by omega) (by omega), hb _ _ (by omega) (by omega),
            hb _ _ (by omega) (by omega), hb _ _ (by omega) (by omega),
            hb _ _ (by omega) (by omega), hb _ _ (by omega) (by omega)]
          norm_num
        · rfl
      have hl : p < (detectEdges data width height).length := by
        rw [length_detectEdges]; exact h1
      rw [List.getD_eq_getElem?_getD, List.getElem?_eq_getElem hl] at hval
      simpa using hval
  refine ⟨hz, ?_⟩
  rw [hz]
  unfold applyEdgeNoise
  generalize (List.range (List.replicate (width * height) 0).length) = ks
  induction ks with
  | nil => rfl
  | cons k ks ih =>
    rw [List.foldl_cons]
    have : edgeNoiseStep P rng (List.replicate (width * height) 0) (data, pos) k = (data, pos) := by
      unfold edgeNoiseStep
      rw [if_neg]
      rw [List.getD_eq_getElem?_getD]
      by_cases hk : k < width * height
      · simp [List.getElem?_replicate, hk]
      · simp [List.getElem?_replicate, hk]
    rw [this, ih]

/-- Witness for `solid_colour_no_edges`: a 3×3 buffer of one colour. -/
theorem solid_colour_no_edges_witness :
    (List.flatten (List.replicate 9 [7, 8, 9, 255]) : List ℤ).length = 4 * (3 * 3) ∧
    (∀ p < 3 * 3, pixelRGB (List.flatten (List.replicate 9 [7, 8, 9, 255])) p = (7, 8, 9)) ∧
    detectEdges (List.flatten (List.replicate 9 [7, 8, 9, 255])) 3 3 = List.replicate (3 * 3) 0 :=
  ⟨by decide, by decide,
    (solid_colour_no_edges ⟨1, 0, 0⟩ (fun _ => 0) 3 3
      (List.flatten (List.replicate 9 [7, 8, 9, 255])) (7, 8, 9) 0 (by decide) (by decide)).1⟩

/-- The brightness of a buffer with a vertical colour boundary depends on the
column only. -/
theorem specBrightness_of_boundary (data : List ℤ) (width height c : ℕ) (A B : ℤ × ℤ × ℤ)
    (hvb : IsVerticalBoundary data width height c A B) (x y : ℕ) (hx : x < width)
    (hy : y < height) :
    specBrightness data width x y =
      if x < c then ((A.1 + A.2.1 + A.2.2 : ℤ) : ℚ) / 3 else ((B.1 + B.2.1 + B.2.2 : ℤ) : ℚ) / 3 := by
  simp only [specBrightness, hvb x hx y hy]
  split_ifs <;> rfl

/-- C7 as stated fails: `(3,0,0)` and `(0,3,0)` are different colours, the
3×3 buffer `redGreenBuffer` has the first in column 0 and the second in
columns 1 and 2 (boundary column `c = 1`), yet the edge entry of the interior
pixel `(1, 1)`, which lies in column `c`, is 0. -/
theorem vertical_boundary_equal_brightness :
    IsVerticalBoundary redGreenBuffer 3 3 1 (3, 0, 0) (0, 3, 0) ∧
    ((3, 0, 0) : ℤ × ℤ × ℤ) ≠ (0, 3, 0) ∧
    ¬ ((detectEdges redGreenBuffer 3 3).getD (1 * 3 + 1) 0 ≠ 0 ↔ (1 + 1 = 1 ∨ 1 = 1)) := by
  refine ⟨?_, by decide, ?_⟩
  · unfold IsVerticalBoundary
    decide
  · have h1 : (detectEdges redGreenBuffer 3 3).getD (1 * 3 + 1) 0 = 0 := by decide!
    rw [h1]
    simp

/-- C7 (amended). Vertical boundary detection: for width and height at least
3, a boundary column `c` with `1 ≤ c ≤ width - 1` and two colours `A`, `B`
whose channel sums `R + G + B` differ (different brightness), in the buffer
whose pixels are `A` in the columns left of `c` and `B` from column `c` on, the
`detectEdges` entry of an interior pixel `(x, y)` is nonzero exactly when
`x = c - 1` or `x = c`. -/
theorem vertical_boundary (width height c : ℕ) (data : List ℤ) (A B : ℤ × ℤ × ℤ)
    (hw : 3 ≤ width) (hh : 3 ≤ height) (hc1 : 1 ≤ c) (hc2 : c ≤ width - 1)
    (hlen : data.length = 4 * (width * height))
    (hvb : IsVerticalBoundary data width height c A B)
    (hsum : A.1 + A.2.1 + A.2.2 ≠ B.1 + B.2.1 + B.2.2) :
    ∀ x y, 1 ≤ x → x + 1 < width → 1 ≤ y → y + 1 < height →
      ((detectEdges data width height).getD (y * width + x) 0 ≠ 0 ↔ (x = c - 1 ∨ x = c)) := by
  have _ := hlen
  have _ := hw
  have _ := hh
  have _ := hc2
  intro x y hx1 hx2 hy1 hy2
  rw [getD_detectEdges data width height x y (by omega) (by omega), if_pos ⟨hx1, hx2, hy1, hy2⟩]
  rw [Ne, storedMagnitude_eq_zero_iff]
  obtain ⟨sx, sy⟩ := sobel_eq data width x y
  have hb := specBrightness_of_boundary data width height c A B hvb
  rw [sx, sy, hb _ _ (by omega) (by omega), hb _ _ (by omega) (by omega),
    hb _ _ (by omega) (by omega), hb _ _ (by omega) (by omega),
    hb _ _ (by omega) (by omega), hb _ _ (by omega) (by omega),
    hb _ _ (by omega) (by omega), hb _ _ (by omega) (by omega)]
  have hn : (B.1 + B.2.1 + B.2.2) - (A.1 + A.2.1 + A.2.2) ≠ 0 := by
    intro h
    exact hsum (by omega)
  have hsq : (1 : ℚ) ≤ (((B.1 + B.2.1 + B.2.2 : ℤ) : ℚ) - ((A.1 + A.2.1 + A.2.2 : ℤ) : ℚ)) ^ 2 := by
    have h1 : (0 : ℤ) < ((B.1 + B.2.1 + B.2.2) - (A.1 + A.2.1 + A.2.2)) ^ 2 := by positivity
    have h2 : (1 : ℤ) ≤ ((B.1 + B.2.1 + B.2.2) - (A.1 + A.2.1 + A.2.2)) ^ 2 := h1
    exact_mod_cast h2
  by_cases h1 : x + 1 < c
  · have h2 : x - 1 < c := by omega
    have h3 : x < c := by omega
    simp only [h1, h2, h3, if_true]
    constructor
    · intro h
      exact absurd (by norm_num) h
    · intro h
      omega
  · by_cases h2 : x - 1 < c
    · have h3 : x = c - 1 ∨ x = c := by omega
      simp only [h1, h2, if_true, if_false]
      constructor
      · intro _
        exact h3
      · intro _ hlt
        nlinarith
    · have h3 : ¬ (x < c) := by omega
      simp only [h1, h2, h3, if_false]
      constructor
      · intro h
        exact absurd (by norm_num) h
      · intro h
        omega

/-- Witness for `vertical_boundary`: black column 0, white columns 1 and 2. -/
theorem vertical_boundary_witness :
    IsVerticalBoundary blackWhiteBuffer 3 3 1 (0, 0, 0) (255, 255, 255) ∧
    ((detectEdges blackWhiteBuffer 3 3).getD (1 * 3 + 1) 0 ≠ 0 ↔ (1 = 1 - 1 ∨ 1 = 1)) :=
  ⟨by unfold IsVerticalBoundary; decide,
    vertical_boundary 3 3 1 blackWhiteBuffer (0, 0, 0) (255, 255, 255) (by decide) (by decide)
      (by decide) (by decide) (by decide) (by unfold IsVerticalBoundary; decide) (by decide)
      1 1 (by decide) (by decide) (by decide) (by decide)⟩

/-! ## Capture operations -/

/-- Inside `applyCanvasNoise` the nested `getImageData` proxy runs on a canvas
that is already in `appliedCanvases`, where it is `getImageDataTail`. -/
theorem getImageData_of_applied {Blob : Type} (P : CanvasProfile) (H : Host Blob)
    (rng : ℕ → ℚ) (s : State) (id : ℕ) (sx sy : ℤ) (sw sh : ℕ)
    (h : id ∈ s.appliedCanvases) :
    getImageData P H rng s id sx sy sw sh =
      match getImageDataTail P H rng s id sx sy sw sh with
      | none => (s, none)
      | some (d, p) => ({ s with pos := p }, some d) := by
  unfold getImageData applyCanvasNoise
  rw [if_pos h]

/-- After the `getContext` proxy returned a `'2d'` context the canvas is in
`appliedCanvases`. -/
theorem mem_applied_getContext (s : State) (id : ℕ) (h : (getContext s id true).2 = true) :
    id ∈ (getContext s id true).1.appliedCanvases := by
  unfold getContext at h ⊢
  simp only at h ⊢
  by_cases hm : id ∈ s.appliedCanvases
  · split_ifs <;> simp [hm]
  · split_ifs with h1
    · simp
    · rw [if_neg h1] at h
      simp only at h
      exact absurd ⟨trivial, h, hm⟩ h1

/-- When the `getContext` proxy returns `null` for `'2d'` it changes nothing. -/
theorem getContext_null (s : State) (id : ℕ) (h : (getContext s id true).2 = false) :
    (getContext s id true).1 = s := by
  unfold getContext at h ⊢
  simp only at h ⊢
  have hr : (origGetContext (s.canvas id) true).2 = false := by
    split_ifs at h <;> exact h
  have hc : (origGetContext (s.canvas id) true).1 = s.canvas id := by
    unfold origGetContext at hr ⊢
    cases hm : (s.canvas id).mode <;> simp [hm] at hr ⊢
  rw [if_neg (fun hh => by rw [hr] at hh; exact absurd hh.2.1 (by decide)), hc,
    Function.update_eq_self]

/-- `applyCanvasNoise` either leaves the state as it is or leaves the canvas in
`appliedCanvases`. -/
theorem applyCanvasNoise_cases {Blob : Type} (P : CanvasProfile) (H : Host Blob)
    (rng : ℕ → ℚ) (s : State) (id : ℕ) :
    applyCanvasNoise P H rng s id = s ∨
      id ∈ (applyCanvasNoise P H rng s id).appliedCanvases := by
  unfold applyCanvasNoise
  by_cases h : id ∈ s.appliedCanvases
  · left
    rw [if_pos h]
  · rw [if_neg h]
    by_cases hg : (getContext s id true).2 = false
    · left
      simp only [hg, if_true]
      exact getContext_null s id hg
    · right
      have hg' : (getContext s id true).2 = true := by simpa using hg
      have hmem := mem_applied_getContext s id hg'
      simp only [hg', Bool.true_eq_false, if_false]
      by_cases h0 : ((getContext s id true).1.canvas id).width = 0 ∨
          ((getContext s id true).1.canvas id).height = 0
      · rw [if_pos h0]
        exact hmem
      · rw [if_neg h0]
        cases hq : getImageDataTail P H rng (getContext s id true).1 id 0 0
            ((getContext s id true).1.canvas id).width
            ((getContext s id true).1.canvas id).height with
        | none => exact hmem
        | some v =>
          simp only [hmem, if_true]

/-- A second `applyCanvasNoise` on the same canvas changes nothing. -/
theorem applyCanvasNoise_idem {Blob : Type} (P : CanvasProfile) (H : Host Blob)
    (rng : ℕ → ℚ) (s : State) (id : ℕ) :
    applyCanvasNoise P H rng (applyCanvasNoise P H rng s id) id =
      applyCanvasNoise P H rng s id := by
  rcases applyCanvasNoise_cases P H rng s id with h | h
  · rw [h, h]
  · generalize applyCanvasNoise P H rng s id = t at h
    unfold applyCanvasNoise
    rw [if_pos h]

/-- Two `toDataURL` calls in a row on the same canvas with the same arguments
return the same result, and so do two `toBlob` calls. -/
theorem toDataURL_toBlob_twice {Blob : Type} (P : CanvasProfile) (H : Host Blob)
    (rng : ℕ → ℚ) (s : State) (id : ℕ) (args : List String) :
    (toDataURL P H rng (toDataURL P H rng s id args).1 id args).2 =
      (toDataURL P H rng s id args).2 ∧
    (toBlob P H rng (toBlob P H rng s id args).1 id args).2 =
      (toBlob P H rng s id args).2 := by
  simp only [toDataURL, toBlob, applyCanvasNoise_idem, and_self]

/-- C1 fails for `getImageData`. A 1×1 canvas holding the pixel
`(100, 100, 100, 255)`, already in `appliedCanvases` (the page obtained its
context through the `getContext` proxy), noise level 1/10, first draw 0 and
later draws 9/10: two `getImageData(0, 0, 1, 1)` calls in a row return
`[98, 98, 98, 255]` and then `[102, 102, 102, 255]`, although the canvas bitmap
is the same before, between and after the calls. -/
theorem getImageData_twice_differs :
    (getImageData ⟨1 / 10, 0, 0⟩ plainHost (fun k => if k = 0 then 0 else 9 / 10)
        ⟨fun _ => ⟨1, 1, [100, 100, 100, 255], ContextMode.twoD, true⟩, [0], 0⟩
        0 0 0 1 1).2 = some [98, 98, 98, 255] ∧
    (getImageData ⟨1 / 10, 0, 0⟩ plainHost (fun k => if k = 0 then 0 else 9 / 10)
        (getImageData ⟨1 / 10, 0, 0⟩ plainHost (fun k => if k = 0 then 0 else 9 / 10)
          ⟨fun _ => ⟨1, 1, [100, 100, 100, 255], ContextMode.twoD, true⟩, [0], 0⟩
          0 0 0 1 1).1
        0 0 0 1 1).2 = some [102, 102, 102, 255] ∧
    ((getImageData ⟨1 / 10, 0, 0⟩ plainHost (fun k => if k = 0 then 0 else 9 / 10)
        ⟨fun _ => ⟨1, 1, [100, 100, 100, 255], ContextMode.twoD, true⟩, [0], 0⟩
        0 0 0 1 1).1.canvas 0).data = [100, 100, 100, 255] ∧
    ((getImageData ⟨1 / 10, 0, 0⟩ plainHost (fun k => if k = 0 then 0 else 9 / 10)
        (getImageData ⟨1 / 10, 0, 0⟩ plainHost (fun k => if k = 0 then 0 else 9 / 10)
          ⟨fun _ => ⟨1, 1, [100, 100, 100, 255], ContextMode.twoD, true⟩, [0], 0⟩
          0 0 0 1 1).1
        0 0 0 1 1).1.canvas 0).data = [100, 100, 100, 255] := by
  refine ⟨?_, ?_, ?_, ?_⟩ <;> decide!

/-! ## Audio bounds -/

theorem byteNoiseLoop_spec (rng : ℕ → ℚ) (a : List ℤ) (pos : ℕ) :
    (byteNoiseLoop rng a pos).1.length = a.length ∧
    (byteNoiseLoop rng a pos).2 = pos + a.length ∧
    ∀ v ∈ (byteNoiseLoop rng a pos).1, 0 ≤ v ∧ v ≤ 255 := by
  induction a generalizing pos with
  | nil => simp [byteNoiseLoop]
  | cons x rest ih =>
    obtain ⟨h1, h2, h3⟩ := ih (pos + 1)
    refine ⟨?_, ?_, ?_⟩
    · simp only [byteNoiseLoop, List.length_cons, h1]
    · simp only [byteNoiseLoop, List.length_cons, h2]
      omega
    · intro v hv
      simp only [byteNoiseLoop, List.mem_cons] at hv
      rcases hv with rfl | hv
      · exact ⟨le_max_left _ _, max_le (by norm_num) (min_le_left _ _)⟩
      · exact h3 v hv

theorem floatTimeNoiseLoop_spec (P : AudioProfile) (rng : ℕ → ℚ) (a : List ℚ) (pos : ℕ) :
    (floatTimeNoiseLoop P rng a pos).1.length = a.length ∧
    (floatTimeNoiseLoop P rng a pos).2 = pos + a.length ∧
    ∀ v ∈ (floatTimeNoiseLoop P rng a pos).1, -1 ≤ v ∧ v ≤ 1 := by
  induction a generalizing pos with
  | nil => simp [floatTimeNoiseLoop]
  | cons x rest ih =>
    obtain ⟨h1, h2, h3⟩ := ih (pos + 1)
    refine ⟨?_, ?_, ?_⟩
    · simp only [floatTimeNoiseLoop, List.length_cons, h1]
    · simp only [floatTimeNoiseLoop, List.length_cons, h2]
      omega
    · intro v hv
      simp only [floatTimeNoiseLoop, List.mem_cons] at hv
      rcases hv with rfl | hv
      · exact ⟨le_max_left _ _, max_le (by norm_num) (min_le_left _ _)⟩
      · exact h3 v hv

/-- C3. Audio bounds: for every array the original left in `args[0]`, every
noise level and every stream, the `getFloatTimeDomainData` wrapper leaves an
array of the same length whose samples are all within `[-1,1]`, and the
`getByteFrequencyData` and `getByteTimeDomainData` wrappers leave an array of
the same length whose samples are all within `[0,255]`. -/
theorem audio_bounds (P : AudioProfile) (rng : ℕ → ℚ) (floats : List ℚ) (bytes : List ℤ)
    (pos : ℕ) :
    (∃ out, (getFloatTimeDomainData P rng (some floats) pos).1 = some out ∧
      out.length = floats.length ∧ ∀ v ∈ out, -1 ≤ v ∧ v ≤ 1) ∧
    (∃ out, (getByteFrequencyData rng (some bytes) pos).1 = some out ∧
      out.length = bytes.length ∧ ∀ v ∈ out, 0 ≤ v ∧ v ≤ 255) ∧
    (∃ out, (getByteTimeDomainData rng (some bytes) pos).1 = some out ∧
      out.length = bytes.length ∧ ∀ v ∈ out, 0 ≤ v ∧ v ≤ 255) := by
  obtain ⟨f1, -, f3⟩ := floatTimeNoiseLoop_spec P rng floats pos
  obtain ⟨b1, -, b3⟩ := byteNoiseLoop_spec rng bytes pos
  exact ⟨⟨_, rfl, f1, f3⟩, ⟨_, rfl, b1, b3⟩, ⟨_, rfl, b1, b3⟩⟩

/-! ## Time zone -/

theorem takeWhile_dropWhile_close (abbr post : List Char) (h : ')' ∉ abbr) :
    (abbr ++ ')' :: post).takeWhile (fun c => c != ')') = abbr ∧
    (abbr ++ ')' :: post).dropWhile (fun c => c != ')') = ')' :: post := by
  induction abbr with
  | nil => simp [List.takeWhile, List.dropWhile]
  | cons a rest ih =>
    have ha : a ≠ ')' := fun e => h (by simp [e])
    have hr : ')' ∉ rest := fun e => h (List.mem_cons_of_mem _ e)
    obtain ⟨i1, i2⟩ := ih hr
    have hne : (a != ')') = true := by simpa using ha
    constructor
    · rw [List.cons_append, List.takeWhile_cons, hne, if_pos rfl, i1]
    · rw [List.cons_append, List.dropWhile_cons, hne, if_pos rfl, i2]

/-- An occurrence of the pattern at the head of the input is matched up to its
closing parenthesis. -/
theorem matchGMT_occurrence (sign d1 d2 d3 d4 : Char) (abbr post : List Char)
    (hsign : sign = '+' ∨ sign = '-')
    (hd : d1.isDigit = true ∧ d2.isDigit = true ∧ d3.isDigit = true ∧ d4.isDigit = true)
    (hne : abbr ≠ []) (hclose : ')' ∉ abbr) :
    matchGMT ('G' :: 'M' :: 'T' :: sign :: d1 :: d2 :: d3 :: d4 :: ' ' :: '(' ::
      (abbr ++ ')' :: post)) = some post := by
  obtain ⟨t1, t2⟩ := takeWhile_dropWhile_close abbr post hclose
  simp only [matchGMT]
  rw [if_pos ⟨trivial, trivial, trivial, hsign, hd.1, hd.2.1, hd.2.2.1, hd.2.2.2, trivial, trivial⟩, t2]
  simp only [t1, if_neg hne]

theorem replaceGMT_cons_none (repl cs : List Char) (c : Char)
    (h : matchGMT (c :: cs) = none) : replaceGMT repl (c :: cs) = c :: replaceGMT repl cs := by
  rw [replaceGMT, h]

theorem replaceGMT_cons_some (repl cs after : List Char) (c : Char)
    (h : matchGMT (c :: cs) = some after) : replaceGMT repl (c :: cs) = repl ++ after := by
  rw [replaceGMT, h]

/-- The replacement acts at the leftmost match and keeps the text around it. -/
theorem replaceGMT_leftmost (repl pre m after : List Char)
    (hno : ∀ k < pre.length, matchGMT ((pre ++ m).drop k) = none)
    (hm : matchGMT m = some after) :
    replaceGMT repl (pre ++ m) = pre ++ repl ++ after := by
  induction pre with
  | nil =>
    cases m with
    | nil => simp [matchGMT] at hm
    | cons c cs => rw [List.nil_append, replaceGMT_cons_some _ _ _ _ hm, List.nil_append]
  | cons c pre ih =>
    have h0 : matchGMT (c :: (pre ++ m)) = none := hno 0 (by simp)
    have hs : ∀ k < pre.length, matchGMT ((pre ++ m).drop k) = none := by
      intro k hk
      have := hno (k + 1) (by simp; omega)
      simpa using this
    rw [List.cons_append, replaceGMT_cons_none _ _ _ h0, ih hs]
    simp

/-- A string without a match is returned unchanged. -/
theorem replaceGMT_no_match (repl s : List Char)
    (hno : ∀ k < s.length, matchGMT (s.drop k) = none) :
    replaceGMT repl s = s := by
  induction s with
  | nil => rfl
  | cons c cs ih =>
    have h0 : matchGMT (c :: cs) = none := hno 0 (by simp)
    have hs : ∀ k < cs.length, matchGMT (cs.drop k) = none := by
      intro k hk
      have := hno (k + 1) (by simp; omega)
      simpa using this
    rw [replaceGMT_cons_none _ _ _ h0, ih hs]

/-- C4. GMT-string rewrite: when the string the original `toString` /
`toTimeString` returned is `pre`, then `"GMT"`, a sign, four digits, `" ("`, a
non-empty abbreviation without `)`, `")"`, then `post`, and this occurrence is the
first match of the pattern (no match begins inside `pre`, as in a date string),
the proxy returns `pre`, then `"GMT" + getGMTOffset() + " (" +
getTimezoneAbbreviation() + ")"`, then `post`; the abbreviation is the table
entry for `profile.name` and `"GMT"` for an unlisted zone; and with offset
`-300` and name `"America/New_York"` the replacement is `"GMT+0500 (EST)"`. -/
theorem gmt_string_rewrite (P : TimezoneProfile) (pre abbr post : String)
    (sign d1 d2 d3 d4 : Char)
    (hsign : sign = '+' ∨ sign = '-')
    (hd : d1.isDigit = true ∧ d2.isDigit = true ∧ d3.isDigit = true ∧ d4.isDigit = true)
    (hne : abbr ≠ "") (hclose : ')' ∉ abbr.data)
    (hfirst : ∀ k < pre.length,
      matchGMT ((pre ++ "GMT" ++ String.mk [sign, d1, d2, d3, d4] ++ " (" ++ abbr ++ ")" ++
        post).data.drop k) = none) :
    dateToString P (pre ++ "GMT" ++ String.mk [sign, d1, d2, d3, d4] ++ " (" ++ abbr ++ ")" ++
        post) =
      pre ++ "GMT" ++ getGMTOffset P ++ " (" ++ getTimezoneAbbreviation P ++ ")" ++ post ∧
    getTimezoneAbbreviation P = (abbreviations.lookup P.name).getD "GMT" ∧
    (P.offset = -300 → P.name = "America/New_York" →
      "GMT" ++ getGMTOffset P ++ " (" ++ getTimezoneAbbreviation P ++ ")" = "GMT+0500 (EST)") := by
  refine ⟨?_, ?_, ?_⟩
  · have hne' : abbr.data ≠ [] := by
      intro h
      apply hne
      apply String.ext
      simpa using h
    have hm := matchGMT_occurrence sign d1 d2 d3 d4 abbr.data post.data hsign hd hne' hclose
    have hshape : (pre ++ "GMT" ++ String.mk [sign, d1, d2, d3, d4] ++ " (" ++ abbr ++ ")" ++
        post).data = pre.data ++ ('G' :: 'M' :: 'T' :: sign :: d1 :: d2 :: d3 :: d4 :: ' ' :: '(' ::
          (abbr.data ++ ')' :: post.data)) := by
      simp [String.data_append]
    unfold dateToString
    apply String.ext
    simp only
    rw [hshape] at hfirst ⊢
    rw [replaceGMT_leftmost _ _ _ _ hfirst hm]
    simp [String.data_append]
  · unfold getTimezoneAbbreviation
    cases abbreviations.lookup P.name <;> rfl
  · intro ho hn
    have h1 : getGMTOffset P = "+0500" := by
      unfold getGMTOffset
      rw [ho]
      decide
    have h2 : getTimezoneAbbreviation P = "EST" := by
      unfold getTimezoneAbbreviation
      rw [hn]
      decide
    rw [h1, h2]
    decide

/-- Witness for `gmt_string_rewrite`: `"GMT+0200 (CEST)"` inside a date string. -/
theorem gmt_string_rewrite_witness :
    (∀ k < ("Thu Nov 06 2026 01:40:00 " : String).length,
      matchGMT (("Thu Nov 06 2026 01:40:00 " ++ "GMT" ++ String.mk ['+', '0', '2', '0', '0'] ++
        " (" ++ "CEST" ++ ")" ++ " end" : String).data.drop k) = none) ∧
    dateToString ⟨"America/New_York", -300, "en-US"⟩
        "Thu Nov 06 2026 01:40:00 GMT+0200 (CEST) end" =
      "Thu Nov 06 2026 01:40:00 GMT+0500 (EST) end" :=
  ⟨by decide,
    (gmt_string_rewrite ⟨"America/New_York", -300, "en-US"⟩ "Thu Nov 06 2026 01:40:00 " "CEST"
      " end" '+' '0' '2' '0' '0' (by decide) (by decide) (by decide) (by decide)
      (by decide)).1⟩

/-- C5. Offset reporting: whatever the profile, the receiver, the arguments
and the offset the original would report, the intercepted `getTimezoneOffset`
returns `profile.offset`; with offset `-300` it returns `-300`. -/
theorem offset_reporting {Recv Arg : Type} (P : TimezoneProfile) (hostOffset : ℤ)
    (thisArg : Recv) (args : List Arg) :
    getTimezoneOffset P hostOffset thisArg args = P.offset ∧
    getTimezoneOffset { P with offset := -300 } hostOffset thisArg args = -300 :=
  ⟨rfl, rfl⟩

/-- C10 as stated fails: a caller who passes the options `{timeZone: ""}` has
specified a time zone explicitly, yet `toLocaleString` forwards
`timeZone = profile.name` instead of the caller's empty string. -/
theorem explicit_timeZone_overridden :
    (toLocaleString ⟨"America/New_York", 300, "en-US"⟩ ()
        none (some ⟨JSValue.string "", ()⟩)).2.timeZone = JSValue.string "America/New_York" ∧
    (toLocaleString ⟨"America/New_York", 300, "en-US"⟩ ()
        none (some ⟨JSValue.string "", ()⟩)).2.timeZone ≠ JSValue.string "" := by
  decide

/-- C10 (amended). Time-zone injection: for `toLocaleString`,
`toLocaleDateString`, `toLocaleTimeString` and `new Intl.DateTimeFormat`, the
options forwarded to the original carry `timeZone = profile.name` when the
caller gave no options object or one whose `timeZone` is absent, carry exactly
the caller's `timeZone` whenever that value is truthy, and carry
`profile.name` when the caller's `timeZone` is falsy (for example the empty
string); the other options are forwarded as given. -/
theorem time_zone_injection {Rest : Type} (P : TimezoneProfile) (empty : Rest)
    (locales : Option String) (options : Option (Options Rest)) :
    toLocaleDateString P empty locales options = toLocaleString P empty locales options ∧
    toLocaleTimeString P empty locales options = toLocaleString P empty locales options ∧
    constructDateTimeFormat P empty locales options = toLocaleString P empty locales options ∧
    (options = none →
      (toLocaleString P empty locales options).2 = ⟨JSValue.string P.name, empty⟩) ∧
    (∀ o, options = some o →
      (toLocaleString P empty locales options).2.rest = o.rest ∧
      (o.timeZone = JSValue.undefined →
        (toLocaleString P empty locales options).2.timeZone = JSValue.string P.name) ∧
      (o.timeZone.truthy = true →
        (toLocaleString P empty locales options).2.timeZone = o.timeZone) ∧
      (o.timeZone.truthy = false →
        (toLocaleString P empty locales options).2.timeZone = JSValue.string P.name)) := by
  refine ⟨rfl, rfl, rfl, ?_, ?_⟩
  · intro h
    subst h
    rfl
  · intro o h
    subst h
    refine ⟨?_, ?_, ?_, ?_⟩
    · simp only [toLocaleString, injectTimeZone, Option.getD_some]
      split_ifs <;> rfl
    · intro hu
      simp only [toLocaleString, injectTimeZone, Option.getD_some, hu, JSValue.truthy, if_true]
    · intro ht
      simp only [toLocaleString, injectTimeZone, Option.getD_some, ht, Bool.true_eq_false,
        if_false]
    · intro hf
      simp only [toLocaleString, injectTimeZone, Option.getD_some, hf, if_true]

/-- Witness for `time_zone_injection`: an explicit `"Asia/Tokyo"` is kept. -/
theorem time_zone_injection_witness :
    (toLocaleString ⟨"America/New_York", 300, "en-US"⟩ () none
        (some ⟨JSValue.string "Asia/Tokyo", ()⟩)).2.timeZone = JSValue.string "Asia/Tokyo" :=
  ((time_zone_injection ⟨"America/New_York", 300, "en-US"⟩ () none
      (some ⟨JSValue.string "Asia/Tokyo", ()⟩)).2.2.2.2 ⟨JSValue.string "Asia/Tokyo", ()⟩
      rfl).2.2.1 (by decide)

/-! ## Offset format -/

theorem padStart2_toString : ∀ n < 100,
    padStart2 (toString n) = String.mk [digitChar (n / 10), digitChar (n % 10)] := by
  decide

theorem digitChar_spec : ∀ d < 10,
    (digitChar d).isDigit = true ∧ digitValue (digitChar d) = d := by
  decide

/-- C12. GMT offset format and sign: for an integer offset with
`|offset| < 6000`, `getGMTOffset` returns five characters: `'+'` when
`offset ≤ 0` and `'-'` when `offset > 0`, then `floor(|offset| / 60)` as two
decimal digits and `|offset| mod 60` as two decimal digits; read back as a
signed `HHMM` value the string denotes `-offset` minutes, the opposite of what
`getTimezoneOffset` reports. -/
theorem gmt_offset_format (P : TimezoneProfile) (h : P.offset.natAbs < 6000) :
    (getGMTOffset P).length = 5 ∧
    getGMTOffset P =
      String.mk [if P.offset ≤ 0 then '+' else '-',
        digitChar (P.offset.natAbs / 60 / 10), digitChar (P.offset.natAbs / 60 % 10),
        digitChar (P.offset.natAbs % 60 / 10), digitChar (P.offset.natAbs % 60 % 10)] ∧
    readSignedHHMM (getGMTOffset P) =
      some (-(getTimezoneOffset P (0 : ℤ) () ([] : List Unit))) := by
  have hH : P.offset.natAbs / 60 < 100 := by omega
  have hM : P.offset.natAbs % 60 < 100 := by omega
  have e : getGMTOffset P =
      String.mk [if P.offset ≤ 0 then '+' else '-',
        digitChar (P.offset.natAbs / 60 / 10), digitChar (P.offset.natAbs / 60 % 10),
        digitChar (P.offset.natAbs % 60 / 10), digitChar (P.offset.natAbs % 60 % 10)] := by
    unfold getGMTOffset
    simp only
    rw [padStart2_toString _ hH, padStart2_toString _ hM]
    split_ifs <;> rfl
  refine ⟨?_, e, ?_⟩
  · rw [e]
    rfl
  · rw [e]
    obtain ⟨a1, a2⟩ := digitChar_spec (P.offset.natAbs / 60 / 10) (by omega)
    obtain ⟨b1, b2⟩ := digitChar_spec (P.offset.natAbs / 60 % 10) (by omega)
    obtain ⟨c1, c2⟩ := digitChar_spec (P.offset.natAbs % 60 / 10) (by omega)
    obtain ⟨d1, d2⟩ := digitChar_spec (P.offset.natAbs % 60 % 10) (by omega)
    have hs : ((if P.offset ≤ 0 then '+' else '-') = '+' ∨
        (if P.offset ≤ 0 then '+' else '-') = '-') := by
      split_ifs
      · exact Or.inl rfl
      · exact Or.inr rfl
    simp only [readSignedHHMM]
    rw [if_pos ⟨hs, a1, b1, c1, d1⟩, a2, b2, c2, d2]
    have hsum : (P.offset.natAbs / 60 / 10 * 10 + P.offset.natAbs / 60 % 10) * 60 +
        (P.offset.natAbs % 60 / 10 * 10 + P.offset.natAbs % 60 % 10) = P.offset.natAbs := by
      omega
    rw [hsum]
    unfold getTimezoneOffset
    by_cases hle : P.offset ≤ 0
    · simp only [hle, if_true]
      congr 1
      omega
    · have hne : ¬ ('-' = '+') := by decide
      simp only [hle, if_false, hne]
      congr 1
      omega

/-- Witness for `gmt_offset_format`: offset `-300` gives `"+0500"`. -/
theorem gmt_offset_format_witness :
    (-300 : ℤ).natAbs < 6000 ∧
    getGMTOffset ⟨"America/New_York", -300, "en-US"⟩ = "+0500" ∧
    readSignedHHMM (getGMTOffset ⟨"America/New_York", -300, "en-US"⟩) = some 300 :=
  ⟨by decide,
    (gmt_offset_format ⟨"America/New_York", -300, "en-US"⟩ (by decide)).2.1,
    (gmt_offset_format ⟨"America/New_York", -300, "en-US"⟩ (by decide)).2.2⟩

/-! ## Watermark, applied marker, oscillator start -/

theorem toDataURL_snd {Blob : Type} (P : CanvasProfile) (H : Host Blob) (rng : ℕ → ℚ)
    (s : State) (id : ℕ) (args : List String) :
    (toDataURL P H rng s id args).2 =
      H.toDataURL ((applyCanvasNoise P H rng s id).canvas id) args := rfl

theorem plainHost_toDataURL (c : Canvas) (args : List String) :
    plainHost.toDataURL c args = if c.originClean = true then some c.data else none := rfl

theorem plainHost_fillRect (c : Canvas) (x y w h : ℚ) (colour : ℤ × ℤ × ℤ) (alpha : ℚ) :
    plainHost.fillRect c x y w h colour alpha = c := rfl

theorem plainHost_putImageData_data (c : Canvas) (d : List ℤ) (w h : ℕ) (dx dy : ℤ) :
    (plainHost.putImageData c d w h dx dy).data = d := rfl

theorem plainHost_putImageData_originClean (c : Canvas) (d : List ℤ) (w h : ℕ) (dx dy : ℤ) :
    (plainHost.putImageData c d w h dx dy).originClean = c.originClean := rfl

/-- The noise pass of `applyCanvasNoise` written out: on a canvas that is not
in `appliedCanvases`, has a `'2d'` context, non-zero size and a readable
bitmap, the result is the global noise of the nested `getImageData`, the edge
noise, the global noise of the nested `putImageData`, the original
`putImageData` and the watermark `fillRect`. -/
theorem applyCanvasNoise_pass {Blob : Type} (P : CanvasProfile) (H : Host Blob)
    (rng : ℕ → ℚ) (s : State) (id : ℕ) (v : List ℤ × ℕ)
    (hid : id ∉ s.appliedCanvases)
    (hctx : (getContext s id true).2 = true)
    (hw : 1 ≤ ((getContext s id true).1.canvas id).width)
    (hh : 1 ≤ ((getContext s id true).1.canvas id).height)
    (hget : getImageDataTail P H rng (getContext s id true).1 id 0 0
      ((getContext s id true).1.canvas id).width
      ((getContext s id true).1.canvas id).height = some v) :
    applyCanvasNoise P H rng s id =
      { canvas := Function.update (getContext s id true).1.canvas id
          (H.fillRect
            (H.putImageData ((getContext s id true).1.canvas id)
              (applyImageDataNoise P rng
                (applyEdgeNoise P rng
                  (detectEdges v.1 ((getContext s id true).1.canvas id).width
                    ((getContext s id true).1.canvas id).height) v.1 v.2).1
                (applyEdgeNoise P rng
                  (detectEdges v.1 ((getContext s id true).1.canvas id).width
                    ((getContext s id true).1.canvas id).height) v.1 v.2).2).1
              ((getContext s id true).1.canvas id).width
              ((getContext s id true).1.canvas id).height 0 0)
            ((((getContext s id true).1.canvas id).width : ℚ) - 1 + P.offsetX)
            ((((getContext s id true).1.canvas id).height : ℚ) - 1 + P.offsetY)
            1 1
            (⌊rng (applyImageDataNoise P rng
                (applyEdgeNoise P rng
                  (detectEdges v.1 ((getContext s id true).1.canvas id).width
                    ((getContext s id true).1.canvas id).height) v.1 v.2).1
                (applyEdgeNoise P rng
                  (detectEdges v.1 ((getContext s id true).1.canvas id).width
                    ((getContext s id true).1.canvas id).height) v.1 v.2).2).2 * 256⌋,
             ⌊rng ((applyImageDataNoise P rng
                (applyEdgeNoise P rng
                  (detectEdges v.1 ((getContext s id true).1.canvas id).width
                    ((getContext s id true).1.canvas id).height) v.1 v.2).1
                (applyEdgeNoise P rng
                  (detectEdges v.1 ((getContext s id true).1.canvas id).width
                    ((getContext s id true).1.canvas id).height) v.1 v.2).2).2 + 1) * 256⌋,
             ⌊rng ((applyImageDataNoise P rng
                (applyEdgeNoise P rng
                  (detectEdges v.1 ((getContext s id true).1.canvas id).width
                    ((getContext s id true).1.canvas id).height) v.1 v.2).1
                (applyEdgeNoise P rng
                  (detectEdges v.1 ((getContext s id true).1.canvas id).width
                    ((getContext s id true).1.canvas id).height) v.1 v.2).2).2 + 2) * 256⌋)
            (1 / 100))
        appliedCanvases := (getContext s id true).1.appliedCanvases
        pos := (applyImageDataNoise P rng
                (applyEdgeNoise P rng
                  (detectEdges v.1 ((getContext s id true).1.canvas id).width
                    ((getContext s id true).1.canvas id).height) v.1 v.2).1
                (applyEdgeNoise P rng
                  (detectEdges v.1 ((getContext s id true).1.canvas id).width
                    ((getContext s id true).1.canvas id).height) v.1 v.2).2).2 + 3 } := by
  have hmem := mem_applied_getContext s id hctx
  have h0 : ¬ (((getContext s id true).1.canvas id).width = 0 ∨
      ((getContext s id true).1.canvas id).height = 0) := by omega
  unfold applyCanvasNoise
  rw [if_neg hid]
  simp only [hctx, Bool.true_eq_false, if_false, if_neg h0, hget, watermarkOrigin,
    if_pos hmem]

/-- The canvas left by the noise pass of `applyCanvasNoise`. -/
theorem applyCanvasNoise_pass_canvas {Blob : Type} (P : CanvasProfile) (H : Host Blob)
    (rng : ℕ → ℚ) (s : State) (id : ℕ) (v : List ℤ × ℕ)
    (hid : id ∉ s.appliedCanvases)
    (hctx : (getContext s id true).2 = true)
    (hw : 1 ≤ ((getContext s id true).1.canvas id).width)
    (hh : 1 ≤ ((getContext s id true).1.canvas id).height)
    (hget : getImageDataTail P H rng (getContext s id true).1 id 0 0
      ((getContext s id true).1.canvas id).width
      ((getContext s id true).1.canvas id).height = some v) :
    (applyCanvasNoise P H rng s id).canvas id =
      H.fillRect
        (H.putImageData ((getContext s id true).1.canvas id)
          (applyImageDataNoise P rng
              (applyEdgeNoise P rng
                (detectEdges v.1 ((getContext s id true).1.canvas id).width
                  ((getContext s id true).1.canvas id).height) v.1 v.2).1
              (applyEdgeNoise P rng
                (detectEdges v.1 ((getContext s id true).1.canvas id).width
                  ((getContext s id true).1.canvas id).height) v.1 v.2).2).1
          ((getContext s id true).1.canvas id).width
          ((getContext s id true).1.canvas id).height 0 0)
        ((((getContext s id true).1.canvas id).width : ℚ) - 1 + P.offsetX)
        ((((getContext s id true).1.canvas id).height : ℚ) - 1 + P.offsetY)
        1 1
        (⌊rng (applyImageDataNoise P rng
              (applyEdgeNoise P rng
                (detectEdges v.1 ((getContext s id true).1.canvas id).width
                  ((getContext s id true).1.canvas id).height) v.1 v.2).1
              (applyEdgeNoise P rng
                (detectEdges v.1 ((getContext s id true).1.canvas id).width
                  ((getContext s id true).1.canvas id).height) v.1 v.2).2).2 * 256⌋, ⌊rng ((applyImageDataNoise P rng
              (applyEdgeNoise P rng
                (detectEdges v.1 ((getContext s id true).1.canvas id).width
                  ((getContext s id true).1.canvas id).height) v.1 v.2).1
              (applyEdgeNoise P rng
                (detectEdges v.1 ((getContext s id true).1.canvas id).width
                  ((getContext s id true).1.canvas id).height) v.1 v.2).2).2 + 1) * 256⌋, ⌊rng ((applyImageDataNoise P rng
              (applyEdgeNoise P rng
                (detectEdges v.1 ((getContext s id true).1.canvas id).width
                  ((getContext s id true).1.canvas id).height) v.1 v.2).1
              (applyEdgeNoise P rng
                (detectEdges v.1 ((getContext s id true).1.canvas id).width
                  ((getContext s id true).1.canvas id).height) v.1 v.2).2).2 + 2) * 256⌋)
        (1 / 100) := by
  rw [applyCanvasNoise_pass P H rng s id v hid hctx hw hh hget]
  exact Function.update_same _ _ _

/-- On the 3×3 black-and-white buffer, noise level 1/10 and draws 0, the
noise pass turns the red channel of the border pixel 1 from 255 into 251. -/
theorem noise_pass_blackWhite_red :
    ((applyImageDataNoise ⟨1 / 10, 0, 0⟩ (fun _ => 0)
      (applyEdgeNoise ⟨1 / 10, 0, 0⟩ (fun _ => 0)
        (detectEdges (applyImageDataNoise ⟨1 / 10, 0, 0⟩ (fun _ => 0) blackWhiteBuffer 0).1 3 3)
        (applyImageDataNoise ⟨1 / 10, 0, 0⟩ (fun _ => 0) blackWhiteBuffer 0).1
        (applyImageDataNoise ⟨1 / 10, 0, 0⟩ (fun _ => 0) blackWhiteBuffer 0).2).1
      (applyEdgeNoise ⟨1 / 10, 0, 0⟩ (fun _ => 0)
        (detectEdges (applyImageDataNoise ⟨1 / 10, 0, 0⟩ (fun _ => 0) blackWhiteBuffer 0).1 3 3)
        (applyImageDataNoise ⟨1 / 10, 0, 0⟩ (fun _ => 0) blackWhiteBuffer 0).1
        (applyImageDataNoise ⟨1 / 10, 0, 0⟩ (fun _ => 0) blackWhiteBuffer 0).2).2).1).getD 4 0 = 251 := by
  have hv : (applyImageDataNoise ⟨1 / 10, 0, 0⟩ (fun _ => 0) blackWhiteBuffer 0).1.getD 4 0 =
      253 := by decide!
  have hvl : (applyImageDataNoise ⟨1 / 10, 0, 0⟩ (fun _ => 0) blackWhiteBuffer 0).1.length =
      36 := by decide!
  have hedge : (detectEdges (applyImageDataNoise ⟨1 / 10, 0, 0⟩ (fun _ => 0)
      blackWhiteBuffer 0).1 3 3).getD (0 * 3 + 1) 0 = 0 := by
    rw [getD_detectEdges _ 3 3 1 0 (by decide) (by decide), if_neg (by decide)]
  obtain ⟨-, el, eg⟩ := applyEdgeNoise_spec ⟨1 / 10, 0, 0⟩ (fun _ => 0)
    (detectEdges (applyImageDataNoise ⟨1 / 10, 0, 0⟩ (fun _ => 0) blackWhiteBuffer 0).1 3 3)
    (applyImageDataNoise ⟨1 / 10, 0, 0⟩ (fun _ => 0) blackWhiteBuffer 0).1
    (applyImageDataNoise ⟨1 / 10, 0, 0⟩ (fun _ => 0) blackWhiteBuffer 0).2
  have he := eg 4
  rw [if_neg (by
    intro hcond
    have h1 := hcond.2.1
    rw [show 4 / 4 = 0 * 3 + 1 from rfl, hedge] at h1
    exact absurd h1 (by decide)), hv] at he
  obtain ⟨-, -, ng⟩ := applyImageDataNoise_spec ⟨1 / 10, 0, 0⟩ (fun _ => 0)
    (applyEdgeNoise ⟨1 / 10, 0, 0⟩ (fun _ => 0)
      (detectEdges (applyImageDataNoise ⟨1 / 10, 0, 0⟩ (fun _ => 0) blackWhiteBuffer 0).1 3 3)
      (applyImageDataNoise ⟨1 / 10, 0, 0⟩ (fun _ => 0) blackWhiteBuffer 0).1
      (applyImageDataNoise ⟨1 / 10, 0, 0⟩ (fun _ => 0) blackWhiteBuffer 0).2).1
    (applyEdgeNoise ⟨1 / 10, 0, 0⟩ (fun _ => 0)
      (detectEdges (applyImageDataNoise ⟨1 / 10, 0, 0⟩ (fun _ => 0) blackWhiteBuffer 0).1 3 3)
      (applyImageDataNoise ⟨1 / 10, 0, 0⟩ (fun _ => 0) blackWhiteBuffer 0).1
      (applyImageDataNoise ⟨1 / 10, 0, 0⟩ (fun _ => 0) blackWhiteBuffer 0).2).2
  have hn := ng 4
  rw [if_pos ⟨by decide, by rw [el, hvl]; decide⟩, he] at hn
  have hcl : clamp (((253 : ℤ) : ℚ) + ((0 : ℚ) - 1 / 2) * (1 / 10) * 50) = 251 := by decide!
  rw [hn]
  exact hcl

/-- The `toDataURL` result for a fresh 3×3 canvas holding `blackWhiteBuffer`
on the plain host is the bitmap after the noise pass. -/
theorem toDataURL_blackWhite :
    (toDataURL ⟨1 / 10, 0, 0⟩ plainHost (fun _ => 0)
        ⟨fun _ => ⟨3, 3, blackWhiteBuffer, ContextMode.unbound, true⟩, [], 0⟩ 0 []).2 =
      some ((applyImageDataNoise ⟨1 / 10, 0, 0⟩ (fun _ => 0)
      (applyEdgeNoise ⟨1 / 10, 0, 0⟩ (fun _ => 0)
        (detectEdges (applyImageDataNoise ⟨1 / 10, 0, 0⟩ (fun _ => 0) blackWhiteBuffer 0).1 3 3)
        (applyImageDataNoise ⟨1 / 10, 0, 0⟩ (fun _ => 0) blackWhiteBuffer 0).1
        (applyImageDataNoise ⟨1 / 10, 0, 0⟩ (fun _ => 0) blackWhiteBuffer 0).2).1
      (applyEdgeNoise ⟨1 / 10, 0, 0⟩ (fun _ => 0)
        (detectEdges (applyImageDataNoise ⟨1 / 10, 0, 0⟩ (fun _ => 0) blackWhiteBuffer 0).1 3 3)
        (applyImageDataNoise ⟨1 / 10, 0, 0⟩ (fun _ => 0) blackWhiteBuffer 0).1
        (applyImageDataNoise ⟨1 / 10, 0, 0⟩ (fun _ => 0) blackWhiteBuffer 0).2).2).1) := by
  have hpass := applyCanvasNoise_pass_canvas ⟨1 / 10, 0, 0⟩ plainHost (fun _ => 0)
    ⟨fun _ => ⟨3, 3, blackWhiteBuffer, ContextMode.unbound, true⟩, [], 0⟩ 0
    (applyImageDataNoise ⟨1 / 10, 0, 0⟩ (fun _ => 0) blackWhiteBuffer 0)
    (by decide) (by decide) (by decide) (by decide) (by rfl)
  have hw : ((getContext ⟨fun _ => ⟨3, 3, blackWhiteBuffer, ContextMode.unbound, true⟩, [], 0⟩
      0 true).1.canvas 0).width = 3 := by decide
  have hh : ((getContext ⟨fun _ => ⟨3, 3, blackWhiteBuffer, ContextMode.unbound, true⟩, [], 0⟩
      0 true).1.canvas 0).height = 3 := by decide
  have hc : ((getContext ⟨fun _ => ⟨3, 3, blackWhiteBuffer, ContextMode.unbound, true⟩, [], 0⟩
      0 true).1.canvas 0).originClean = true := by decide
  rw [hw, hh] at hpass
  rw [toDataURL_snd, plainHost_toDataURL, hpass]
  rw [plainHost_fillRect, plainHost_putImageData_data,
    plainHost_putImageData_originClean, hc, if_pos rfl]

/-- C13 as stated fails: with `offsetX = 1` on a 1×1 canvas the watermark
rectangle starts at `x = 1`, outside `[0, width - 1] = [0, 0]`; the
coordinates are not clamped. -/
theorem watermark_not_clamped :
    (watermarkOrigin ⟨1 / 10, 1, 0⟩ 1 1).1 = 1 ∧
    ¬ (0 ≤ (watermarkOrigin ⟨1 / 10, 1, 0⟩ 1 1).1 ∧
      (watermarkOrigin ⟨1 / 10, 1, 0⟩ 1 1).1 ≤ ((1 : ℕ) : ℚ) - 1) := by
  have h : (watermarkOrigin ⟨1 / 10, 1, 0⟩ 1 1).1 = 1 := by
    norm_num [watermarkOrigin]
  refine ⟨h, ?_⟩
  rw [h]
  norm_num

/-- C13 (amended). Watermark position: when `applyCanvasNoise` runs its noise
pass on a canvas of width and height at least 1, the canvas it leaves is the
result of the original `fillRect` called, at opacity 0.01, with a 1×1 rectangle
whose origin is `(width - 1 + offsetX, height - 1 + offsetY)`, unclamped; that
origin lies in `[0, width - 1] × [0, height - 1]` exactly when
`-(width - 1) ≤ offsetX ≤ 0` and `-(height - 1) ≤ offsetY ≤ 0`. -/
theorem watermark_origin {Blob : Type} (P : CanvasProfile) (H : Host Blob) (rng : ℕ → ℚ)
    (s : State) (id : ℕ) (v : List ℤ × ℕ)
    (hid : id ∉ s.appliedCanvases)
    (hctx : (getContext s id true).2 = true)
    (hw : 1 ≤ ((getContext s id true).1.canvas id).width)
    (hh : 1 ≤ ((getContext s id true).1.canvas id).height)
    (hget : getImageDataTail P H rng (getContext s id true).1 id 0 0
      ((getContext s id true).1.canvas id).width
      ((getContext s id true).1.canvas id).height = some v) :
    (∃ c2 colour, (applyCanvasNoise P H rng s id).canvas id =
      H.fillRect c2
        ((((getContext s id true).1.canvas id).width : ℚ) - 1 + P.offsetX)
        ((((getContext s id true).1.canvas id).height : ℚ) - 1 + P.offsetY)
        1 1 colour (1 / 100)) ∧
    ∀ width height : ℕ,
      watermarkOrigin P width height =
        ((width : ℚ) - 1 + P.offsetX, (height : ℚ) - 1 + P.offsetY) ∧
      ((0 ≤ (watermarkOrigin P width height).1 ∧
          (watermarkOrigin P width height).1 ≤ (width : ℚ) - 1) ↔
        (-((width : ℚ) - 1) ≤ P.offsetX ∧ P.offsetX ≤ 0)) ∧
      ((0 ≤ (watermarkOrigin P width height).2 ∧
          (watermarkOrigin P width height).2 ≤ (height : ℚ) - 1) ↔
        (-((height : ℚ) - 1) ≤ P.offsetY ∧ P.offsetY ≤ 0)) := by
  constructor
  · exact ⟨_, _, applyCanvasNoise_pass_canvas P H rng s id v hid hctx hw hh hget⟩
  · intro width height
    refine ⟨rfl, ?_, ?_⟩
    · simp only [watermarkOrigin]
      constructor
      · rintro ⟨h1, h2⟩
        constructor <;> linarith
      · rintro ⟨h1, h2⟩
        constructor <;> linarith
    · simp only [watermarkOrigin]
      constructor
      · rintro ⟨h1, h2⟩
        constructor <;> linarith
      · rintro ⟨h1, h2⟩
        constructor <;> linarith

/-- Witness for `watermark_origin`: a fresh 1×1 canvas on the plain host. -/
theorem watermark_origin_witness :
    (0 ≤ (watermarkOrigin ⟨1 / 10, -1, 0⟩ 3 3).1 ∧
        (watermarkOrigin ⟨1 / 10, -1, 0⟩ 3 3).1 ≤ ((3 : ℕ) : ℚ) - 1) ↔
      (-(((3 : ℕ) : ℚ) - 1) ≤ (-1 : ℚ) ∧ (-1 : ℚ) ≤ 0) :=
  ((watermark_origin ⟨1 / 10, -1, 0⟩ plainHost (fun _ => 0)
      ⟨fun _ => ⟨1, 1, [100, 100, 100, 255], ContextMode.unbound, true⟩, [], 0⟩ 0
      (applyImageDataNoise ⟨1 / 10, -1, 0⟩ (fun _ => 0) [100, 100, 100, 255] 0)
      (by decide) (by decide) (by decide) (by decide) (by rfl)).2 3 3).2.1

/-- C15 fails after a single `getContext('2d')`. Starting from an empty
`appliedCanvases`, the page call `canvas.getContext('2d')` on a 3×3 canvas
holding `blackWhiteBuffer` puts the canvas in `appliedCanvases` although no
stream value has been drawn and the bitmap is untouched (no edge-noise pass, no
watermark); a following `toDataURL` returns the untouched bitmap, whereas the
same `toDataURL` from the initial state returns a noised one. -/
theorem applied_without_noise :
    (0 ∈ (run ⟨1 / 10, 0, 0⟩ plainHost (fun _ => 0)
        ⟨fun _ => ⟨3, 3, blackWhiteBuffer, ContextMode.unbound, true⟩, [], 0⟩
        [CanvasOp.getContext 0 true]).appliedCanvases) ∧
    (run ⟨1 / 10, 0, 0⟩ plainHost (fun _ => 0)
        ⟨fun _ => ⟨3, 3, blackWhiteBuffer, ContextMode.unbound, true⟩, [], 0⟩
        [CanvasOp.getContext 0 true]).pos = 0 ∧
    ((run ⟨1 / 10, 0, 0⟩ plainHost (fun _ => 0)
        ⟨fun _ => ⟨3, 3, blackWhiteBuffer, ContextMode.unbound, true⟩, [], 0⟩
        [CanvasOp.getContext 0 true]).canvas 0).data = blackWhiteBuffer ∧
    (toDataURL ⟨1 / 10, 0, 0⟩ plainHost (fun _ => 0)
        (run ⟨1 / 10, 0, 0⟩ plainHost (fun _ => 0)
          ⟨fun _ => ⟨3, 3, blackWhiteBuffer, ContextMode.unbound, true⟩, [], 0⟩
          [CanvasOp.getContext 0 true]) 0 []).2 = some blackWhiteBuffer ∧
    (toDataURL ⟨1 / 10, 0, 0⟩ plainHost (fun _ => 0)
        (run ⟨1 / 10, 0, 0⟩ plainHost (fun _ => 0)
          ⟨fun _ => ⟨3, 3, blackWhiteBuffer, ContextMode.unbound, true⟩, [], 0⟩
          [CanvasOp.getContext 0 true]) 0 []).1.pos = 0 ∧
    (toDataURL ⟨1 / 10, 0, 0⟩ plainHost (fun _ => 0)
        ⟨fun _ => ⟨3, 3, blackWhiteBuffer, ContextMode.unbound, true⟩, [], 0⟩ 0 []).2 ≠
      some blackWhiteBuffer := by
  refine ⟨by decide!, by decide!, by decide!, by decide!, by decide!, ?_⟩
  rw [toDataURL_blackWhite]
  intro hEq
  have hn := noise_pass_blackWhite_red
  rw [Option.some.inj hEq] at hn
  exact absurd hn (by decide)

theorem applied_mono_getContext (s : State) (id j : ℕ) (is2d : Bool)
    (h : j ∈ s.appliedCanvases) : j ∈ (getContext s id is2d).1.appliedCanvases := by
  unfold getContext
  simp only
  split_ifs
  · exact List.mem_cons_of_mem _ h
  · exact h

theorem applied_mono_applyCanvasNoise {Blob : Type} (P : CanvasProfile) (H : Host Blob)
    (rng : ℕ → ℚ) (s : State) (id j : ℕ) (h : j ∈ s.appliedCanvases) :
    j ∈ (applyCanvasNoise P H rng s id).appliedCanvases := by
  have hg := applied_mono_getContext s id j true h
  unfold applyCanvasNoise
  by_cases h1 : id ∈ s.appliedCanvases
  · rw [if_pos h1]
    exact h
  · rw [if_neg h1]
    simp only
    by_cases h2 : (getContext s id true).2 = false
    · rw [if_pos h2]
      exact hg
    · rw [if_neg h2]
      by_cases h3 : ((getContext s id true).1.canvas id).width = 0 ∨
          ((getContext s id true).1.canvas id).height = 0
      · rw [if_pos h3]
        exact hg
      · rw [if_neg h3]
        split
        · exact hg
        · simp only
          split_ifs
          · exact hg
          · exact List.mem_cons_of_mem _ hg

/-- No intercepted operation removes a canvas from `appliedCanvases`. -/
theorem applied_mono_step {Blob : Type} (P : CanvasProfile) (H : Host Blob) (rng : ℕ → ℚ)
    (s : State) (op : CanvasOp) (j : ℕ) (h : j ∈ s.appliedCanvases) :
    j ∈ (step P H rng s op).appliedCanvases := by
  cases op with
  | getContext id is2d => exact applied_mono_getContext s id j is2d h
  | toDataURL id args => exact applied_mono_applyCanvasNoise P H rng s id j h
  | toBlob id args => exact applied_mono_applyCanvasNoise P H rng s id j h
  | getImageData id sx sy sw sh =>
    have := applied_mono_applyCanvasNoise P H rng s id j h
    simp only [step, getImageData]
    split
    · exact this
    · exact this
  | putImageData id data w h' dx dy => exact h

theorem applied_mono_run {Blob : Type} (P : CanvasProfile) (H : Host Blob) (rng : ℕ → ℚ)
    (ops : List CanvasOp) (s : State) (j : ℕ) (h : j ∈ s.appliedCanvases) :
    j ∈ (run P H rng s ops).appliedCanvases := by
  induction ops generalizing s with
  | nil => exact h
  | cons op ops ih => exact ih _ (applied_mono_step P H rng s op j h)

/-- The `getContext` proxy marks without noising, for good: when it returns a
`'2d'` context the canvas is in `appliedCanvases` while the stream position
and the bitmap are as before, and after any further intercepted operations
`applyCanvasNoise` on that canvas still returns at its first line. -/
theorem getContext_marks_without_noise {Blob : Type} (P : CanvasProfile) (H : Host Blob)
    (rng : ℕ → ℚ) (s : State) (id : ℕ) (ops : List CanvasOp)
    (h : (getContext s id true).2 = true) :
    id ∈ (getContext s id true).1.appliedCanvases ∧
    (getContext s id true).1.pos = s.pos ∧
    ((getContext s id true).1.canvas id).data = (s.canvas id).data ∧
    applyCanvasNoise P H rng (run P H rng (getContext s id true).1 ops) id =
      run P H rng (getContext s id true).1 ops := by
  have hmem := mem_applied_getContext s id h
  refine ⟨hmem, ?_, ?_, ?_⟩
  · unfold getContext
    simp only
    split_ifs <;> rfl
  · have hd : (origGetContext (s.canvas id) true).1.data = (s.canvas id).data := by
      unfold origGetContext
      cases (s.canvas id).mode <;> rfl
    unfold getContext
    simp only
    split_ifs <;> simp only [Function.update_same, hd]
  · have := applied_mono_run P H rng ops _ id hmem
    unfold applyCanvasNoise
    rw [if_pos this]

/-- C16 fails at `start(0)`: with a draw of 0 the start time forwarded to the
original is `-0.00005`, which is negative. -/
theorem oscillator_start_negative :
    oscillatorStart (fun _ => 0) [JSValue.number 0] 0 =
      ([JSValue.number (-1 / 20000)], 1) ∧ (-1 / 20000 : ℚ) < 0 := by
  constructor
  · decide!
  · norm_num

/-- What the `start` proxy does guarantee: a first argument that is not a
number leaves the arguments and the stream as they were, and a start time of
at least `0.00005` stays non-negative for draws in `[0, 1)`. -/
theorem oscillatorStart_spec (rng : ℕ → ℚ) (pos : ℕ) (t : ℚ) (rest : List JSValue)
    (hr : 0 ≤ rng pos) (ht : 1 / 20000 ≤ t) :
    oscillatorStart rng [] pos = ([], pos) ∧
    (∀ s, oscillatorStart rng (JSValue.string s :: rest) pos = (JSValue.string s :: rest, pos)) ∧
    oscillatorStart rng (JSValue.undefined :: rest) pos = (JSValue.undefined :: rest, pos) ∧
    (∃ t', oscillatorStart rng (JSValue.number t :: rest) pos =
      (JSValue.number t' :: rest, pos + 1) ∧ 0 ≤ t') := by
  refine ⟨rfl, fun _ => rfl, rfl, ⟨_, rfl, ?_⟩⟩
  nlinarith

/-! ## Edge detection in double precision -/

namespace Binary64

theorem isqrtBits_spec (n : ℕ) (i r : ℕ) (h1 : r * r ≤ n) (h2 : n < (r + 2 ^ i) * (r + 2 ^ i)) :
    isqrtBits n i r * isqrtBits n i r ≤ n ∧
      n < (isqrtBits n i r + 1) * (isqrtBits n i r + 1) := by
  induction i generalizing r with
  | zero => simpa [isqrtBits] using ⟨h1, h2⟩
  | succ i ih =>
    rw [isqrtBits]
    by_cases hc : (r + 2 ^ i) * (r + 2 ^ i) ≤ n
    · rw [if_pos hc]
      apply ih _ hc
      have : r + 2 ^ i + 2 ^ i = r + 2 ^ (i + 1) := by rw [pow_succ]; ring
      rw [this]
      exact h2
    · rw [if_neg hc]
      exact ih _ h1 (not_le.mp hc)

theorem log2Fuel_spec (fuel n : ℕ) (hn : 1 ≤ n) (hf : n ≤ fuel) :
    2 ^ log2Fuel fuel n ≤ n ∧ n < 2 ^ (log2Fuel fuel n + 1) := by
  induction fuel generalizing n with
  | zero => omega
  | succ fuel ih =>
    rw [log2Fuel]
    by_cases h : n < 2
    · rw [if_pos h]
      constructor <;> simp <;> omega
    · rw [if_neg h]
      obtain ⟨a, b⟩ := ih (n / 2) (by omega) (by omega)
      constructor
      · rw [pow_succ]
        omega
      · rw [pow_succ]
        omega

theorem log2_spec (n : ℕ) (hn : 1 ≤ n) : 2 ^ log2 n ≤ n ∧ n < 2 ^ (log2 n + 1) :=
  log2Fuel_spec n n hn le_rfl

/-- The bitwise integer square root is the integer square root. -/
theorem isqrt_eq_sqrt (n : ℕ) : isqrt n = Nat.sqrt n := by
  rcases Nat.eq_zero_or_pos n with h | h
  · subst h
    decide
  · obtain ⟨a, b⟩ := log2_spec n h
    have hb : n < (0 + 2 ^ (log2 n / 2 + 1)) * (0 + 2 ^ (log2 n / 2 + 1)) := by
      rw [Nat.zero_add, ← pow_add]
      calc n < 2 ^ (log2 n + 1) := b
        _ ≤ 2 ^ (log2 n / 2 + 1 + (log2 n / 2 + 1)) :=
          Nat.pow_le_pow_right (by norm_num) (by omega)
    obtain ⟨c, d⟩ := isqrtBits_spec n (log2 n / 2 + 1) 0 (by simp) hb
    exact Nat.eq_sqrt.mpr ⟨c, d⟩

theorem roundHalfEven_error (m : ℚ) : |(roundHalfEven m : ℚ) - m| ≤ 1 / 2 := by
  have h1 : (⌊m⌋ : ℚ) ≤ m := Int.floor_le m
  have h2 : m < ⌊m⌋ + 1 := Int.lt_floor_add_one m
  unfold roundHalfEven
  simp only
  rw [abs_le]
  split_ifs with a b c
  · constructor <;> linarith
  · push_cast
    constructor <;> linarith
  · have : m - ⌊m⌋ = 1 / 2 := le_antisymm (not_lt.mp b) (not_lt.mp a)
    constructor <;> linarith
  · have : m - ⌊m⌋ = 1 / 2 := le_antisymm (not_lt.mp b) (not_lt.mp a)
    push_cast
    constructor <;> linarith

theorem binade_spec (q : ℚ) (hq : q ≠ 0) :
    (2 : ℚ) ^ binade q ≤ |q| ∧ |q| < (2 : ℚ) ^ (binade q + 1) := by
  have hn : 1 ≤ q.num.natAbs := Nat.pos_of_ne_zero (by simpa using hq)
  have hd : 1 ≤ q.den := q.pos
  obtain ⟨a1, a2⟩ := log2_spec q.num.natAbs hn
  obtain ⟨b1, b2⟩ := log2_spec q.den hd
  have habs : |q| = (q.num.natAbs : ℚ) / (q.den : ℚ) := by
    conv_lhs => rw [← Rat.num_div_den q]
    rw [abs_div, Nat.abs_cast]
    congr 1
    rw [Nat.cast_natAbs, Int.cast_abs]
  have hdpos : (0 : ℚ) < q.den := by exact_mod_cast hd
  have A1 : ((2 : ℚ) ^ log2 q.num.natAbs) ≤ q.num.natAbs := by exact_mod_cast a1
  have A2 : (q.num.natAbs : ℚ) < (2 : ℚ) ^ (log2 q.num.natAbs + 1) := by exact_mod_cast a2
  have B1 : ((2 : ℚ) ^ log2 q.den) ≤ q.den := by exact_mod_cast b1
  have B2 : (q.den : ℚ) < (2 : ℚ) ^ (log2 q.den + 1) := by exact_mod_cast b2
  have two : (2 : ℚ) ≠ 0 := by norm_num
  have hpa : (0 : ℚ) < (2 : ℚ) ^ log2 q.num.natAbs := by positivity
  have hpb : (0 : ℚ) < (2 : ℚ) ^ log2 q.den := by positivity
  have e0 : (2 : ℚ) ^ ((log2 q.num.natAbs : ℤ) - (log2 q.den : ℤ)) =
      (2 : ℚ) ^ log2 q.num.natAbs / (2 : ℚ) ^ log2 q.den := by
    rw [zpow_sub₀ two, zpow_natCast, zpow_natCast]
  have up : |q| < (2 : ℚ) ^ ((log2 q.num.natAbs : ℤ) - (log2 q.den : ℤ) + 1) := by
    rw [zpow_add_one₀ two, e0, habs, div_lt_iff₀ hdpos]
    calc (q.num.natAbs : ℚ) < (2 : ℚ) ^ (log2 q.num.natAbs + 1) := A2
      _ = (2 : ℚ) ^ log2 q.num.natAbs / (2 : ℚ) ^ log2 q.den * 2 * (2 : ℚ) ^ log2 q.den := by
          field_simp
          ring
      _ ≤ (2 : ℚ) ^ log2 q.num.natAbs / (2 : ℚ) ^ log2 q.den * 2 * q.den := by
          apply mul_le_mul_of_nonneg_left B1
          positivity
  have lo : (2 : ℚ) ^ ((log2 q.num.natAbs : ℤ) - (log2 q.den : ℤ) - 1) ≤ |q| := by
    rw [zpow_sub_one₀ two, e0, habs, le_div_iff₀ hdpos]
    calc (2 : ℚ) ^ log2 q.num.natAbs / (2 : ℚ) ^ log2 q.den * 2⁻¹ * q.den
        ≤ (2 : ℚ) ^ log2 q.num.natAbs / (2 : ℚ) ^ log2 q.den * 2⁻¹ *
            (2 : ℚ) ^ (log2 q.den + 1) := by
          apply mul_le_mul_of_nonneg_left B2.le
          positivity
      _ = (2 : ℚ) ^ log2 q.num.natAbs := by
          field_simp
          ring
      _ ≤ q.num.natAbs := A1
  unfold binade
  simp only
  split_ifs with h
  · exact ⟨h, up⟩
  · refine ⟨lo, ?_⟩
    rw [sub_add_cancel]
    exact not_le.mp h

/-- Rounding to a double moves a value by at most half a unit in the last
place, that is by at most `|q| / 2 ^ 53`. -/
theorem round_error (q : ℚ) : |round q - q| ≤ |q| / 2 ^ 53 := by
  by_cases hq : q = 0
  · subst hq
    simp [round]
  · obtain ⟨h1, _⟩ := binade_spec q hq
    have hu : (0 : ℚ) < (2 : ℚ) ^ (binade q - 52) := by positivity
    have he := roundHalfEven_error (q / (2 : ℚ) ^ (binade q - 52))
    have hr : round q - q =
        ((roundHalfEven (q / (2 : ℚ) ^ (binade q - 52)) : ℚ) - q / (2 : ℚ) ^ (binade q - 52)) *
          (2 : ℚ) ^ (binade q - 52) := by
      unfold round
      rw [if_neg hq]
      field_simp
    rw [hr, abs_mul, abs_of_pos hu]
    have e : (2 : ℚ) ^ (binade q - 52) = (2 : ℚ) ^ binade q / 2 ^ 52 := by
      rw [zpow_sub₀ (by norm_num : (2 : ℚ) ≠ 0)]
      norm_num
    calc |(roundHalfEven (q / (2 : ℚ) ^ (binade q - 52)) : ℚ) - q / (2 : ℚ) ^ (binade q - 52)| *
          (2 : ℚ) ^ (binade q - 52)
        ≤ 1 / 2 * (2 : ℚ) ^ (binade q - 52) := mul_le_mul_of_nonneg_right he hu.le
      _ = (2 : ℚ) ^ binade q / 2 ^ 53 := by rw [e]; ring
      _ ≤ |q| / 2 ^ 53 := div_le_div_of_nonneg_right h1 (by positivity)

theorem length_detectEdgesRow_binary64 (data : List ℤ) (width : ℕ) (edges : List ℕ) (y : ℕ) :
    (detectEdgesRow data width edges y).length = edges.length := by
  unfold detectEdgesRow
  exact length_foldl_set _ _ _ _

theorem length_foldl_detectEdgesRow_binary64 (data : List ℤ) (width : ℕ) (ys : List ℕ)
    (init : List ℕ) :
    (ys.foldl (detectEdgesRow data width) init).length = init.length := by
  induction ys generalizing init with
  | nil => rfl
  | cons y ys ih => rw [List.foldl_cons, ih, length_detectEdgesRow_binary64]

theorem getD_detectEdgesRow_binary64 (data : List ℤ) (width : ℕ) (edges : List ℕ) (y p : ℕ) :
    (detectEdgesRow data width edges y).getD p 0 =
      if (∃ x ∈ List.range' 1 (width - 2), y * width + x = p) ∧ p < edges.length then
        storedMagnitude data width (p % width) (p / width)
      else edges.getD p 0 := by
  unfold detectEdgesRow
  rw [getD_foldl_set (fun q => storedMagnitude data width (q % width) (q / width))]
  intro k hk
  rw [List.mem_range'_1] at hk
  have hkw : k < width := by omega
  obtain ⟨h1, h2⟩ := index_div_mod width k y hkw
  simp only [h1, h2]

theorem getD_foldl_detectEdgesRow_binary64 (data : List ℤ) (width : ℕ) (ys : List ℕ)
    (init : List ℕ) (p : ℕ) :
    (ys.foldl (detectEdgesRow data width) init).getD p 0 =
      if (∃ y ∈ ys, ∃ x ∈ List.range' 1 (width - 2), y * width + x = p) ∧ p < init.length then
        storedMagnitude data width (p % width) (p / width)
      else init.getD p 0 := by
  induction ys generalizing init with
  | nil => simp
  | cons y ys ih =>
    rw [List.foldl_cons, ih, length_detectEdgesRow_binary64, getD_detectEdgesRow_binary64]
    simp only [List.mem_cons, exists_eq_or_imp]
    exact ite_ite_or _ _ _ _ _

theorem length_detectEdges_binary64 (data : List ℤ) (width height : ℕ) :
    (detectEdges data width height).length = width * height := by
  unfold detectEdges
  rw [length_foldl_detectEdgesRow_binary64, List.length_replicate]

/-- The double-precision edge map pixel by pixel: the stored magnitude in the
interior, zero on the border. -/
theorem getD_detectEdges_binary64 (data : List ℤ) (width height x y : ℕ)
    (hx : x < width) (hy : y < height) :
    (detectEdges data width height).getD (y * width + x) 0 =
      if 1 ≤ x ∧ x + 1 < width ∧ 1 ≤ y ∧ y + 1 < height then
        storedMagnitude data width x y
      else 0 := by
  unfold detectEdges
  rw [getD_foldl_detectEdgesRow_binary64, List.length_replicate]
  obtain ⟨h1, h2⟩ := index_div_mod width x y hx
  have hlt := index_lt width height x y hx hy
  have hiff : (∃ y' ∈ List.range' 1 (height - 2),
        ∃ x' ∈ List.range' 1 (width - 2), y' * width + x' = y * width + x) ↔
      (1 ≤ x ∧ x + 1 < width ∧ 1 ≤ y ∧ y + 1 < height) := by
    constructor
    · rintro ⟨y', hy', x', hx', he⟩
      rw [List.mem_range'_1] at hy' hx'
      obtain ⟨e1, e2⟩ := index_div_mod width x' y' (by omega)
      rw [he, h1] at e1
      rw [he, h2] at e2
      subst e1 e2
      omega
    · rintro ⟨a, b, c, d⟩
      exact ⟨y, by rw [List.mem_range'_1]; omega, x, by rw [List.mem_range'_1]; omega, rfl⟩
  simp only [hiff, hlt, and_true, h1, h2]
  split_ifs <;> simp [List.getD_eq_getElem?_getD]

theorem getPixelBrightness_eq_spec_binary64 (data : List ℤ) (width x y : ℕ) :
    getPixelBrightness data (y * width + x) = specBrightness data width x y := by
  simp only [getPixelBrightness, specBrightness, pixelRGB, Nat.mul_comm (y * width + x) 4]

/-- The Sobel responses of the code are the kernel responses of the
specification, operation for operation. -/
theorem sobel_eq_spec (data : List ℤ) (width x y : ℕ) (hx : 1 ≤ x) (hy : 1 ≤ y) :
    sobelX data width x y = specKernelResponse sobelKernelX data width x y ∧
    sobelY data width x y = specKernelResponse sobelKernelY data width x y := by
  have a1 : x + 1 - 1 = x := by omega
  have a2 : x + 2 - 1 = x + 1 := by omega
  have b1 : y + 1 - 1 = y := by omega
  have b2 : y + 2 - 1 = y + 1 := by omega
  constructor
  · simp only [sobelX, specKernelResponse, specKernelTerms, sobelKernelX,
      getPixelBrightness_eq_spec_binary64, List.range, List.range.loop, List.flatMap_cons,
      List.flatMap_nil, List.map_cons, List.map_nil, List.cons_append, List.nil_append,
      List.append_nil, List.tail_cons, List.headD_cons, List.foldl_cons, List.foldl_nil,
      List.getD_cons_zero, List.getD_cons_succ, Nat.add_zero, a1, a2, b1, b2]
  · simp only [sobelY, specKernelResponse, specKernelTerms, sobelKernelY,
      getPixelBrightness_eq_spec_binary64, List.range, List.range.loop, List.flatMap_cons,
      List.flatMap_nil, List.map_cons, List.map_nil, List.cons_append, List.nil_append,
      List.append_nil, List.tail_cons, List.headD_cons, List.foldl_cons, List.foldl_nil,
      List.getD_cons_zero, List.getD_cons_succ, Nat.add_zero, a1, a2, b1, b2]

end Binary64

/-- In exact arithmetic the centre of `roundingBuffer` has edge value 8; in
double arithmetic `gy` is rounded to just below 8 and the stored value is 7. -/
theorem rounding_lowers_edge_value :
    (detectEdges roundingBuffer 3 3).getD (1 * 3 + 1) 0 = 8 ∧
    (Binary64.detectEdges roundingBuffer 3 3).getD (1 * 3 + 1) 0 = 7 := by
  constructor <;> decide!

/-- C8 as stated fails: on the 3×3 buffer `cornerDotBuffer` the Sobel
responses at the centre are `gx = 1`, `gy = -1`, so `sqrt(gx² + gy²)` clamped
to `[0,255]` is `sqrt 2`, while the stored edge value is `1`; it differs from
the exact value and from the double that `Math.sqrt` returns. -/
theorem edge_map_not_exact_sqrt :
    cornerDotBuffer.length = 4 * (3 * 3) ∧
    (((Binary64.detectEdges cornerDotBuffer 3 3).getD (1 * 3 + 1) 0 : ℕ) : ℝ) ≠
      min (255 : ℝ) (Real.sqrt (((specKernelResponse sobelKernelX cornerDotBuffer 3 1 1) ^ 2 +
        (specKernelResponse sobelKernelY cornerDotBuffer 3 1 1) ^ 2 : ℚ) : ℝ)) ∧
    (((Binary64.detectEdges cornerDotBuffer 3 3).getD (1 * 3 + 1) 0 : ℕ) : ℚ) ≠
      min 255 (Binary64.sqrt (Binary64.add
        (Binary64.mul (Binary64.specKernelResponse sobelKernelX cornerDotBuffer 3 1 1)
          (Binary64.specKernelResponse sobelKernelX cornerDotBuffer 3 1 1))
        (Binary64.mul (Binary64.specKernelResponse sobelKernelY cornerDotBuffer 3 1 1)
          (Binary64.specKernelResponse sobelKernelY cornerDotBuffer 3 1 1)))) := by
  have h1 : (Binary64.detectEdges cornerDotBuffer 3 3).getD (1 * 3 + 1) 0 = 1 := by decide!
  have h2 : specKernelResponse sobelKernelX cornerDotBuffer 3 1 1 = 1 := by decide!
  have h3 : specKernelResponse sobelKernelY cornerDotBuffer 3 1 1 = -1 := by decide!
  refine ⟨by decide, ?_, by decide!⟩
  rw [h1, h2, h3]
  intro h
  have h4 : Real.sqrt (((1 : ℚ) ^ 2 + (-1 : ℚ) ^ 2 : ℚ) : ℝ) = 1 := by
    rcases min_choice (255 : ℝ) (Real.sqrt (((1 : ℚ) ^ 2 + (-1 : ℚ) ^ 2 : ℚ) : ℝ)) with h5 | h5
    · rw [h5] at h
      norm_num at h
    · rw [h5] at h
      exact_mod_cast h.symm
  have h6 : (((1 : ℚ) ^ 2 + (-1 : ℚ) ^ 2 : ℚ) : ℝ) = 2 := by norm_num
  rw [h6] at h4
  have h7 := Real.sq_sqrt (show (0 : ℝ) ≤ 2 by norm_num)
  rw [h4] at h7
  norm_num at h7

/-- C8 (amended). Edge map definition: for an RGBA buffer of `width * height`
pixels `detectEdges` returns `width * height` entries; an entry on the 1-pixel
border is 0; an interior entry is the integer part (the `Uint8Array` store
truncates) of `Math.min(255, Math.sqrt(gx * gx + gy * gy))` evaluated in
double precision, where `gx` and `gy` are the responses of the horizontal
kernel `[-1,0,1;-2,0,2;-1,0,1]` and the vertical kernel
`[-1,-2,-1;0,0,0;1,2,1]` on the brightness `(R+G+B)/3`, the nine products
added row by row and every operation rounded to the nearest double. -/
theorem edge_map_definition (width height : ℕ) (data : List ℤ)
    (hlen : data.length = 4 * (width * height)) :
    (Binary64.detectEdges data width height).length = width * height ∧
    ∀ x < width, ∀ y < height,
      ((x = 0 ∨ x = width - 1 ∨ y = 0 ∨ y = height - 1) →
        (Binary64.detectEdges data width height).getD (y * width + x) 0 = 0) ∧
      (¬ (x = 0 ∨ x = width - 1 ∨ y = 0 ∨ y = height - 1) →
        (Binary64.detectEdges data width height).getD (y * width + x) 0 =
          ⌊min 255 (Binary64.sqrt (Binary64.add
            (Binary64.mul (Binary64.specKernelResponse sobelKernelX data width x y)
              (Binary64.specKernelResponse sobelKernelX data width x y))
            (Binary64.mul (Binary64.specKernelResponse sobelKernelY data width x y)
              (Binary64.specKernelResponse sobelKernelY data width x y))))⌋₊) := by
  have _ := hlen
  refine ⟨Binary64.length_detectEdges_binary64 data width height, ?_⟩
  intro x hx y hy
  rw [Binary64.getD_detectEdges_binary64 data width height x y hx hy]
  constructor
  · intro hb
    rw [if_neg]
    omega
  · intro hb
    have hi : 1 ≤ x ∧ x + 1 < width ∧ 1 ≤ y ∧ y + 1 < height := by omega
    obtain ⟨sx, sy⟩ := Binary64.sobel_eq_spec data width x y hi.1 hi.2.2.1
    rw [if_pos hi, Binary64.storedMagnitude, sx, sy]

/-- Witness for `edge_map_definition`: the 3×3 buffer `roundingBuffer`, its
length and its centre entry. -/
theorem edge_map_definition_witness :
    roundingBuffer.length = 4 * (3 * 3) ∧
    (Binary64.detectEdges roundingBuffer 3 3).length = 3 * 3 ∧
    (Binary64.detectEdges roundingBuffer 3 3).getD (1 * 3 + 1) 0 =
      ⌊min 255 (Binary64.sqrt (Binary64.add
        (Binary64.mul (Binary64.specKernelResponse sobelKernelX roundingBuffer 3 1 1)
          (Binary64.specKernelResponse sobelKernelX roundingBuffer 3 1 1))
        (Binary64.mul (Binary64.specKernelResponse sobelKernelY roundingBuffer 3 1 1)
          (Binary64.specKernelResponse sobelKernelY roundingBuffer 3 1 1))))⌋₊ :=
  ⟨by decide, (edge_map_definition 3 3 roundingBuffer (by decide)).1,
    ((edge_map_definition 3 3 roundingBuffer (by decide)).2 1 (by decide) 1 (by decide)).2
      (by decide)⟩

/-! ## Installation of the Intl.DateTimeFormat proxies -/

/-- `Object.setPrototypeOf(proxy, target)` throws whenever the proxy has no
`setPrototypeOf` trap and the target is an ordinary object that is not
already its own prototype: the call is forwarded to the target, where the
new prototype is the object itself and the cycle check fails. -/
theorem setPrototypeOf_proxy_target_throws (heap : List HeapObject) (p t : ℕ)
    (current : Option ℕ) (extensible : Bool)
    (hp : heap.get? p = some (HeapObject.proxy t))
    (ht : heap.get? t = some (HeapObject.ordinary current extensible))
    (hc : current ≠ some t) :
    objectSetPrototypeOf heap p (some t) = none := by
  have hlen : 0 < heap.length := by
    rcases heap with _ | ⟨a, l⟩
    · simp at hp
    · simp
  obtain ⟨n, hn⟩ : ∃ n, heap.length = n + 1 := ⟨heap.length - 1, by omega⟩
  have hord : ordinarySetPrototypeOf heap t (some t) = (false, heap) := by
    unfold ordinarySetPrototypeOf
    rw [ht]
    simp only
    rw [if_neg (fun h => hc h.symm)]
    cases extensible with
    | false => simp
    | true =>
      have : prototypeChainReaches heap t heap.length (some t) = true := by
        rw [hn, prototypeChainReaches, if_pos rfl]
      simp [this]
  unfold objectSetPrototypeOf
  have : internalSetPrototypeOf heap (heap.length + 1) p (some t) = (false, heap) := by
    rw [hn, internalSetPrototypeOf, hp]
    simp only
    rw [internalSetPrototypeOf, ht]
    simp only
    exact hord
  rw [this]
  simp

/-- The handler of the `resolvedOptions` proxy, if it ran: it sets `timeZone`
to `profile.name`, replaces the locale by `profile.locale` when the original's
locale is falsy or `"en-US"`, and keeps the rest. -/
theorem resolvedOptions_handler {Rest : Type} (P : TimezoneProfile)
    (result : ResolvedOptions Rest) :
    (resolvedOptions P result).timeZone = JSValue.string P.name ∧
    (resolvedOptions P result).rest = result.rest ∧
    ((result.locale.truthy = false ∨ result.locale = JSValue.string "en-US") →
      (resolvedOptions P result).locale = JSValue.string P.locale) ∧
    (¬ (result.locale.truthy = false ∨ result.locale = JSValue.string "en-US") →
      (resolvedOptions P result).locale = result.locale) := by
  unfold resolvedOptions
  refine ⟨?_, ?_, ?_, ?_⟩
  · simp only
    split_ifs <;> rfl
  · simp only
    split_ifs <;> rfl
  · intro h
    simp only
    rw [if_pos h]
  · intro h
    simp only
    rw [if_neg h]

/-- C11 fails on the running program. `interceptIntlDateTimeFormat` throws at
`Object.setPrototypeOf(Intl.DateTimeFormat, OriginalDateTimeFormat)` after
installing only the `construct` proxy, so `resolvedOptions` is never wrapped:
with profile zone `"America/New_York"` and locale `"fr-FR"`, a formatter whose
original `resolvedOptions` reports `"Europe/Berlin"` and `"de-DE"` still
reports `"Europe/Berlin"` and `"de-DE"` to the page. -/
theorem resolved_options_not_installed :
    interceptIntlDateTimeFormat = (⟨true, false, false⟩, true) ∧
    (pageResolvedOptions ⟨"America/New_York", 300, "fr-FR"⟩ interceptIntlDateTimeFormat.1
        ⟨JSValue.string "de-DE", JSValue.string "Europe/Berlin", ()⟩).timeZone =
      JSValue.string "Europe/Berlin" ∧
    (pageResolvedOptions ⟨"America/New_York", 300, "fr-FR"⟩ interceptIntlDateTimeFormat.1
        ⟨JSValue.string "de-DE", JSValue.string "Europe/Berlin", ()⟩).timeZone ≠
      JSValue.string "America/New_York" ∧
    (pageResolvedOptions ⟨"America/New_York", 300, "fr-FR"⟩ interceptIntlDateTimeFormat.1
        ⟨JSValue.string "de-DE", JSValue.string "Europe/Berlin", ()⟩).locale =
      JSValue.string "de-DE" := by
  decide

/-- The handler of the `supportedLocalesOf` proxy, if it ran: when the
requested array includes `profile.locale` the returned list contains it
(appended at the end when the original omitted it, the original list itself
when it was there); otherwise the original list is returned. -/
theorem supportedLocalesOf_handler (P : TimezoneProfile) (locales : List JSValue)
    (result : List String) :
    (JSValue.string P.locale ∈ locales →
      P.locale ∈ supportedLocalesOf P (some locales) result ∧
      (P.locale ∉ result →
        supportedLocalesOf P (some locales) result = result ++ [P.locale]) ∧
      (P.locale ∈ result → supportedLocalesOf P (some locales) result = result)) ∧
    (JSValue.string P.locale ∉ locales →
      supportedLocalesOf P (some locales) result = result) := by
  unfold supportedLocalesOf
  constructor
  · intro h
    simp only [if_pos h]
    refine ⟨?_, ?_, ?_⟩
    · by_cases hr : P.locale ∈ result
      · rw [if_pos hr]
        exact hr
      · rw [if_neg hr]
        simp
    · intro hr
      rw [if_neg hr]
    · intro hr
      rw [if_pos hr]
  · intro h
    simp only [if_neg h]

/-- C14 fails on the running program. `interceptIntlDateTimeFormat` throws
before it reaches the `supportedLocalesOf` proxy, so the original is called
unwrapped: with profile locale `"fr-FR"`, the request `['de-DE', 'fr-FR']` and
an original that supports only `"de-DE"`, the page gets `["de-DE"]`, without
`"fr-FR"`. -/
theorem supported_locales_not_installed :
    interceptIntlDateTimeFormat.2 = true ∧
    interceptIntlDateTimeFormat.1.supportedLocalesOf = false ∧
    pageSupportedLocalesOf ⟨"America/New_York", 300, "fr-FR"⟩ interceptIntlDateTimeFormat.1
        (some [JSValue.string "de-DE", JSValue.string "fr-FR"]) ["de-DE"] = ["de-DE"] ∧
    "fr-FR" ∉ pageSupportedLocalesOf ⟨"America/New_York", 300, "fr-FR"⟩
        interceptIntlDateTimeFormat.1
        (some [JSValue.string "de-DE", JSValue.string "fr-FR"]) ["de-DE"] := by
  decide

end Chameleon
